import Mathlib

/-!
Verification of the donegroup cleanup coordinator (donegroup.go).

The Go library attaches a `doneGroup` record to a `context.Context`; cleanup
functions are registered per context, gated on the context's done channel and
on the entry's internal `_ctx` gate, and a `Wait*` call joins the registered
`sync.WaitGroup`s after cancelling the gate.

The embedding is a small-step transition system.  Cancellable contexts are
represented by the list of cancel-frame identifiers whose cancellation makes
them done (a context is done iff any frame on its chain is cancelled), and a
pointer to the nearest `doneGroup` reachable through `ctx.Value`.  Each public
Go function becomes an executable Lean function on the global state; the
asynchronous pieces (the goroutine spawned by `CleanupWithKey`, the goroutine
spawned by `GoWithKey`, the phases of `WaitWithContextAndKey`) become separate
guarded transitions, so that every interleaving of registrations,
cancellations and waits is a trace of the `Step` relation.
-/

namespace Donegroup

/-- Error identities, sufficient for `errors.Is`-style identity inspection:
`canceled` and `deadlineExceeded` are the two stdlib sentinels the library
uses, `notContainDoneGroup` is `ErrNotContainDoneGroup`, and `user n` stands
for an arbitrary distinct error value returned by a cleanup function. -/
inductive GoErr where
  | canceled
  | deadlineExceeded
  | notContainDoneGroup
  | user (n : Nat)
deriving DecidableEq

/-- A context value: `dones` is the chain of cancel frames (own frame first,
then the ancestors'); the context's done channel is closed iff any frame in
`dones` is cancelled.  `dg` is the nearest `doneGroup` found by
`ctx.Value(doneGroupKey)`, if any. -/
structure Ctx where
  dones : List Nat
  dg : Option Nat
deriving DecidableEq

instance : Inhabited Ctx := ⟨⟨[], none⟩⟩

instance : Inhabited GoErr := ⟨GoErr.canceled⟩

/-- The `doneGroup` record.  `cancelFrame` is the frame cancelled by
`dg.cancel`; `gateFrames` is the chain of the internal `_ctx` (head is the
frame cancelled by `dg._cancel`; a leaf's `_ctx` is derived from its parent's
`_ctx`, hence the tail); `cleanupGroups` lists the `sync.WaitGroup`s by id;
`ctxw` is the recorded wait context's frame chain; `errs` is the accumulated
error as the ordered list of joined errors (empty list = nil error). -/
structure DoneGroup where
  cancelFrame : Nat
  gateFrames : List Nat
  cleanupGroups : List Nat
  ctxw : Option (List Nat)
  errs : List GoErr
deriving DecidableEq, Inhabited

/-- What a registered cleanup function does when invoked: `user r` is a
function that returns the fixed result `r`; `awaiter f` is the function
registered by `AwaiterWithKey`, which selects between the wait context's done
channel (returning its `Err()`) and the completion frame `f`. -/
inductive ActKind where
  | user (ret : Option GoErr)
  | awaiter (ctxxFrame : Nat)
deriving DecidableEq

/-- One registration made by `CleanupWithKey`: the goroutine waits for
`regDones` (the registration context) and the gate of entry `dgId`, then runs
the function once.  `groupId` is the `rootWg := dg.cleanupGroups[0]` counter
the registration was added to; `runs` counts completed executions. -/
structure Action where
  regDones : List Nat
  dgId : Nat
  groupId : Nat
  kind : ActKind
  runs : Nat
deriving DecidableEq

instance : Inhabited Action := ⟨⟨[], 0, 0, ActKind.user none, 0⟩⟩

inductive WaitPhase where
  | blocked
  | joining
  | finished
deriving DecidableEq

/-- One in-flight `WaitWithContextAndKey` call: `blocked` until the scope is
done, `joining` once the gate has been cancelled and the group list
snapshotted (the `for ... range dg.cleanupGroups` loop), `finished` once every
snapshotted group has drained; `result` is the returned `dg.errors`. -/
structure WaitOp where
  scopeDones : List Nat
  dgId : Nat
  ctxwDones : List Nat
  phase : WaitPhase
  snapshot : List Nat
  result : Option (List GoErr)
deriving DecidableEq

instance : Inhabited WaitOp := ⟨⟨[], 0, [], WaitPhase.blocked, [], none⟩⟩

/-- The goroutine spawned by `GoWithKey`: runs `f` (result `ret`), merges the
error into entry `dgId`, then calls `completed()` (cancels `ctxxFrame`). -/
structure GoTask where
  dgId : Nat
  ret : Option GoErr
  ctxxFrame : Nat
  done : Bool
deriving DecidableEq

/-- Global state: `cancelled` maps a cancelled frame to its recorded cause
(first cancellation wins, as for `context.CancelCauseFunc`); `ctxs` is the
registry of context values created so far (index 0 is `context.Background`). -/
structure State where
  nextFrame : Nat
  nextGroup : Nat
  cancelled : List (Nat × Option GoErr)
  ctxs : List Ctx
  dgs : List DoneGroup
  actions : List Action
  waits : List WaitOp
  gos : List GoTask
deriving DecidableEq

def init : State :=
  { nextFrame := 0, nextGroup := 0, cancelled := [],
    ctxs := [default], dgs := [], actions := [], waits := [], gos := [] }

/-- Has frame `f` been cancelled? -/
def frameCancelled (s : State) (f : Nat) : Bool :=
  (s.cancelled.lookup f).isSome

/-- Done channel of a context with frame chain `dones`. -/
def ctxDone (s : State) (dones : List Nat) : Bool :=
  dones.any fun f => frameCancelled s f

/-- The external cancellable-scope primitive (`context.CancelCauseFunc`):
cancelling an already-cancelled frame is a no-op, so the first cancellation
and its cause win. -/
def cancelFrame (s : State) (f : Nat) (cause : Option GoErr) : State :=
  if frameCancelled s f then s
  else { s with cancelled := (f, cause) :: s.cancelled }

/-- Allocate a fresh frame id (`context.WithCancel` / a timeout timer). -/
def allocFrame (s : State) : State :=
  { s with nextFrame := s.nextFrame + 1 }

/-- `withDoneGroup(ctx, cancelCause, key)`: if the context has no entry, build
the root entry with a fresh internal gate and a fresh group; otherwise append
a fresh group to the entry found in the context (the code comment says "Add
cleanupGroup to parent doneGroup") and build a leaf entry holding only that
group, its gate derived from the parent entry's gate. -/
def withDoneGroup (s : State) (c : Ctx) (cancelF : Nat) : State × Ctx :=
  match c.dg with
  | none =>
      ({ s with nextFrame := s.nextFrame + 1, nextGroup := s.nextGroup + 1,
                dgs := s.dgs ++
                  [{ cancelFrame := cancelF, gateFrames := [s.nextFrame],
                     cleanupGroups := [s.nextGroup], ctxw := none, errs := [] }] },
       { c with dg := some s.dgs.length })
  | some p =>
      match s.dgs[p]? with
      | none => (s, c)
      | some pdg =>
          ({ s with nextFrame := s.nextFrame + 1, nextGroup := s.nextGroup + 1,
                    dgs := (s.dgs.set p
                        { pdg with cleanupGroups := pdg.cleanupGroups ++ [s.nextGroup] }) ++
                      [{ cancelFrame := cancelF, gateFrames := s.nextFrame :: pdg.gateFrames,
                         cleanupGroups := [s.nextGroup], ctxw := none, errs := [] }] },
           { c with dg := some s.dgs.length })

/-- `WithCancelCauseWithKey`: derive a cancellable context (fresh frame at the
head of the chain) and attach a `doneGroup` via `withDoneGroup`.  Returns the
new state, the returned context, and the frame its cancel function cancels. -/
def withCancelCauseWithKey (s : State) (c : Ctx) : State × Ctx × Nat :=
  ((withDoneGroup (allocFrame s) { dones := s.nextFrame :: c.dones, dg := c.dg } s.nextFrame).1,
   (withDoneGroup (allocFrame s) { dones := s.nextFrame :: c.dones, dg := c.dg } s.nextFrame).2,
   s.nextFrame)

/-- Scope creation as a transition: derive from context `ci` and register the
returned context. -/
def newScopeOp (s : State) (ci : Nat) : State :=
  { (withCancelCauseWithKey s (s.ctxs.getD ci default)).1 with
    ctxs := (withCancelCauseWithKey s (s.ctxs.getD ci default)).1.ctxs ++
      [(withCancelCauseWithKey s (s.ctxs.getD ci default)).2.1] }

/-- Plain `context.WithCancel` derivation (no new entry): the child shares the
nearest entry of its parent. -/
def plainDeriveOp (s : State) (ci : Nat) : State :=
  { s with nextFrame := s.nextFrame + 1,
           ctxs := s.ctxs ++
             [{ dones := s.nextFrame :: (s.ctxs.getD ci default).dones,
                dg := (s.ctxs.getD ci default).dg }] }

/-- `CleanupWithKey`: fail with `ErrNotContainDoneGroup` when the context has
no entry; otherwise add the registration to `rootWg := dg.cleanupGroups[0]`
and return nil immediately (the waiting happens in the spawned goroutine,
modelled by the `runAct` transition).  The inner `none` branch is unreachable
for states built by the API: a context's entry pointer is always live. -/
def cleanupWithKey (s : State) (c : Ctx) (kind : ActKind) : State × Option GoErr :=
  match c.dg with
  | none => (s, some GoErr.notContainDoneGroup)
  | some d =>
      match s.dgs[d]? with
      | none => (s, some GoErr.notContainDoneGroup)
      | some dg =>
          ({ s with actions := s.actions ++
              [{ regDones := c.dones, dgId := d,
                 groupId := dg.cleanupGroups.headD 0, kind := kind, runs := 0 }] },
           none)

/-- Append an error to an entry's accumulated error
(`dg.errors = errors.Join(dg.errors, err)` under the mutex). -/
def appendErr (s : State) (d : Nat) (e : Option GoErr) : State :=
  match e with
  | none => s
  | some err =>
      match s.dgs[d]? with
      | none => s
      | some dg =>
          { s with dgs := s.dgs.set d { dg with errs := dg.errs ++ [err] } }

/-- Gate (`dg._ctx`) of entry `d` is done. -/
def gateDoneOfDg (s : State) (d : Nat) : Bool :=
  match s.dgs[d]? with
  | none => false
  | some dg => ctxDone s dg.gateFrames

/-- The wait context currently recorded on entry `d`. -/
def ctxwOf (s : State) (d : Nat) : Option (List Nat) :=
  match s.dgs[d]? with
  | none => none
  | some dg => dg.ctxw

/-- The recorded wait context of entry `d` is done. -/
def ctxwDone (s : State) (d : Nat) : Bool :=
  match ctxwOf s d with
  | none => false
  | some l => ctxDone s l

/-- `ctxw.Err()` as observed by an awaiter function: the recorded cause of the
first cancelled frame on the wait context's chain (Canceled by default). -/
def ctxwErr (s : State) (d : Nat) : GoErr :=
  match ctxwOf s d with
  | none => GoErr.canceled
  | some l =>
      match l.find? (fun f => frameCancelled s f) with
      | none => GoErr.canceled
      | some f => ((s.cancelled.lookup f).join).getD GoErr.canceled

/-- Guard of the cleanup goroutine: the function body starts only after the
registration context is done and the entry's gate is done; an awaiter
additionally blocks in its `select` until the wait context or its completion
frame fires (`pick` chooses the branch when racing). -/
def canRun (s : State) (i : Nat) (pick : Bool) : Bool :=
  match s.actions[i]? with
  | none => false
  | some a =>
      a.runs == 0 && ctxDone s a.regDones && gateDoneOfDg s a.dgId &&
      (match a.kind with
       | .user _ => true
       | .awaiter ctxx => if pick then ctxwDone s a.dgId else frameCancelled s ctxx)

/-- Result of invoking the registered function. -/
def actionResult (s : State) (a : Action) (pick : Bool) : Option GoErr :=
  match a.kind with
  | .user r => r
  | .awaiter _ => if pick then some (ctxwErr s a.dgId) else none

/-- Body of the cleanup goroutine once released: run the function, merge a
non-nil error into the entry it was registered through, count the run
(`rootWg.Done()`). -/
def runActionOp (s : State) (i : Nat) (pick : Bool) : State :=
  match s.actions[i]? with
  | none => s
  | some a =>
      { appendErr s a.dgId (actionResult s a pick) with
        actions := (appendErr s a.dgId (actionResult s a pick)).actions.set i
          { a with runs := a.runs + 1 } }

/-- `WaitWithContextAndKey`, first half: fail when no entry, else record the
wait context on the entry and start blocking on the scope's done channel. -/
def waitWithContextAndKey (s : State) (c : Ctx) (ctxwDones : List Nat) :
    State × Option GoErr :=
  match c.dg with
  | none => (s, some GoErr.notContainDoneGroup)
  | some d =>
      match s.dgs[d]? with
      | none => (s, some GoErr.notContainDoneGroup)
      | some dg =>
          ({ s with dgs := s.dgs.set d { dg with ctxw := some ctxwDones },
                    waits := s.waits ++
                      [{ scopeDones := c.dones, dgId := d, ctxwDones := ctxwDones,
                         phase := .blocked, snapshot := [], result := none }] },
           none)

/-- `WaitWithKey`: wait context is `context.Background()` (never done). -/
def waitWithKey (s : State) (c : Ctx) : State × Option GoErr :=
  waitWithContextAndKey s c []

/-- `WaitWithTimeoutAndKey`: build a deadline-bound wait context (a fresh
frame that the timer will cancel with `DeadlineExceeded`) and delegate. -/
def waitWithTimeoutAndKey (s : State) (c : Ctx) : State × Option GoErr :=
  waitWithContextAndKey (allocFrame s) c [s.nextFrame]

/-- `CancelWithContextAndKey`: cancel the entry's frame with cause
`context.Canceled`, then perform `WaitWithContextAndKey`. -/
def cancelWithContextAndKey (s : State) (c : Ctx) (ctxwDones : List Nat) :
    State × Option GoErr :=
  match c.dg with
  | none => (s, some GoErr.notContainDoneGroup)
  | some d =>
      match s.dgs[d]? with
      | none => (s, some GoErr.notContainDoneGroup)
      | some dg =>
          waitWithContextAndKey (cancelFrame s dg.cancelFrame (some GoErr.canceled)) c ctxwDones

/-- `CancelWithKey`: wait context is `context.Background()`. -/
def cancelWithKey (s : State) (c : Ctx) : State × Option GoErr :=
  cancelWithContextAndKey s c []

/-- `AwaiterWithKey`: createx the completion frame first, then register the
selecting cleanup function; on failure return the error (the frame is still
allocated, as in the source). -/
def awaiterWithKey (s : State) (c : Ctx) : State × Except GoErr Nat :=
  match (cleanupWithKey (allocFrame s) c (ActKind.awaiter s.nextFrame)).2 with
  | some e => ((cleanupWithKey (allocFrame s) c (ActKind.awaiter s.nextFrame)).1, .error e)
  | none => ((cleanupWithKey (allocFrame s) c (ActKind.awaiter s.nextFrame)).1, .ok s.nextFrame)

/-- Outcome of a call that may panic. -/
inductive PanicOr (α : Type) where
  | ok (a : α)
  | panicked (e : GoErr)
deriving DecidableEq

/-- `AwaitableWithKey`: like `AwaiterWithKey` but panics on error. -/
def awaitableWithKey (s : State) (c : Ctx) : State × PanicOr Nat :=
  match (awaiterWithKey s c).2 with
  | .error e => ((awaiterWithKey s c).1, .panicked e)
  | .ok k => ((awaiterWithKey s c).1, .ok k)

/-- `GoWithKey`: panic when the context has no entry; otherwise obtain an
awaiter token and spawn the function as a tracked goroutine. -/
def goWithKey (s : State) (c : Ctx) (fret : Option GoErr) : State × PanicOr Unit :=
  match c.dg with
  | none => (s, .panicked GoErr.notContainDoneGroup)
  | some d =>
      match (awaiterWithKey s c).2 with
      | .error e => ((awaiterWithKey s c).1, .panicked e)
      | .ok ctxx =>
          ({ (awaiterWithKey s c).1 with gos := (awaiterWithKey s c).1.gos ++
              [{ dgId := d, ret := fret, ctxxFrame := ctxx, done := false }] },
           .ok ())

def canRunGo (s : State) (i : Nat) : Bool :=
  match s.gos[i]? with
  | none => false
  | some t => !t.done

/-- Body of the goroutine spawned by `GoWithKey`: run `f`, merge its error,
call `completed()`. -/
def runGoOp (s : State) (i : Nat) : State :=
  match s.gos[i]? with
  | none => s
  | some t =>
      { cancelFrame (appendErr s t.dgId t.ret) t.ctxxFrame none with
        gos := (cancelFrame (appendErr s t.dgId t.ret) t.ctxxFrame none).gos.set i
          { t with done := true } }

/-- The wait may proceed past `<-ctx.Done()` once the scope is done. -/
def canGate (s : State) (wi : Nat) : Bool :=
  match s.waits[wi]? with
  | none => false
  | some w => w.phase == WaitPhase.blocked && ctxDone s w.scopeDones

/-- Second half of `WaitWithContextAndKey`: snapshot `dg.cleanupGroups` for
the join loop and cancel the gate (`dg._cancel()`). -/
def waitGateOp (s : State) (wi : Nat) : State :=
  match s.waits[wi]? with
  | none => s
  | some w =>
      match s.dgs[w.dgId]? with
      | none => s
      | some dg =>
          { cancelFrame s (dg.gateFrames.headD 0) none with
            waits := (cancelFrame s (dg.gateFrames.headD 0) none).waits.set wi
              { w with phase := .joining, snapshot := dg.cleanupGroups } }

/-- A `sync.WaitGroup` has drained: no registration counted into it is still
pending. -/
def groupDrained (s : State) (g : Nat) : Bool :=
  s.actions.all fun a => a.groupId != g || a.runs != 0

/-- `wg.Wait()` returns once every snapshotted group has drained.  Note the
guard does not consult the wait context. -/
def canFinish (s : State) (wi : Nat) : Bool :=
  match s.waits[wi]? with
  | none => false
  | some w => w.phase == WaitPhase.joining && w.snapshot.all fun g => groupDrained s g

/-- Final step of `WaitWithContextAndKey`: return `dg.errors`. -/
def waitFinishOp (s : State) (wi : Nat) : State :=
  match s.waits[wi]? with
  | none => s
  | some w =>
      match s.dgs[w.dgId]? with
      | none => s
      | some dg =>
          { s with waits :=
              s.waits.set wi { w with phase := .finished, result := some dg.errs } }

/-- One interleaved step of the system: an API call by some caller, a timer or
user cancellation, or progress of one of the spawned goroutines. -/
inductive Step (s : State) : State → Prop where
  | newScope (ci : Nat) (h : ci < s.ctxs.length) : Step s (newScopeOp s ci)
  | plainDerive (ci : Nat) (h : ci < s.ctxs.length) : Step s (plainDeriveOp s ci)
  | newFrame : Step s (allocFrame s)
  | cancel (f : Nat) (cause : Option GoErr) : Step s (cancelFrame s f cause)
  | cleanup (ci : Nat) (ret : Option GoErr) (h : ci < s.ctxs.length) :
      Step s (cleanupWithKey s (s.ctxs.getD ci default) (ActKind.user ret)).1
  | awaiterCall (ci : Nat) (h : ci < s.ctxs.length) :
      Step s (awaiterWithKey s (s.ctxs.getD ci default)).1
  | goCall (ci : Nat) (fret : Option GoErr) (h : ci < s.ctxs.length) :
      Step s (goWithKey s (s.ctxs.getD ci default) fret).1
  | waitStart (ci : Nat) (ctxwDones : List Nat) (h : ci < s.ctxs.length) :
      Step s (waitWithContextAndKey s (s.ctxs.getD ci default) ctxwDones).1
  | runAct (i : Nat) (pick : Bool) (h : canRun s i pick = true) :
      Step s (runActionOp s i pick)
  | runGo (i : Nat) (h : canRunGo s i = true) : Step s (runGoOp s i)
  | waitGate (wi : Nat) (h : canGate s wi = true) : Step s (waitGateOp s wi)
  | waitFinish (wi : Nat) (h : canFinish s wi = true) : Step s (waitFinishOp s wi)

/-- States reachable from the initial state. -/
inductive Reachable : State → Prop where
  | init : Reachable init
  | step {s s' : State} : Reachable s → Step s s' → Reachable s'

/-- Reflexive-transitive closure of `Step`. -/
inductive ReachableFrom : State → State → Prop where
  | refl (s : State) : ReachableFrom s s
  | step {s s' s'' : State} : ReachableFrom s s' → Step s' s'' → ReachableFrom s s''

theorem Reachable.extend {s s' : State} (h : Reachable s) (h2 : ReachableFrom s s') :
    Reachable s' := by
  induction h2 with
  | refl => exact h
  | step _ hstep ih => exact Reachable.step ih hstep

/-! ### Basic lemmas about the primitive operations -/

theorem cancelFrame_dgs (s : State) (f : Nat) (c : Option GoErr) :
    (cancelFrame s f c).dgs = s.dgs := by
  unfold cancelFrame; split <;> rfl

theorem cancelFrame_actions (s : State) (f : Nat) (c : Option GoErr) :
    (cancelFrame s f c).actions = s.actions := by
  unfold cancelFrame; split <;> rfl

theorem cancelFrame_waits (s : State) (f : Nat) (c : Option GoErr) :
    (cancelFrame s f c).waits = s.waits := by
  unfold cancelFrame; split <;> rfl

theorem cancelFrame_gos (s : State) (f : Nat) (c : Option GoErr) :
    (cancelFrame s f c).gos = s.gos := by
  unfold cancelFrame; split <;> rfl

theorem cancelFrame_ctxs (s : State) (f : Nat) (c : Option GoErr) :
    (cancelFrame s f c).ctxs = s.ctxs := by
  unfold cancelFrame; split <;> rfl

theorem frameCancelled_cancelFrame_mono {s : State} {f : Nat} (f' : Nat) (c : Option GoErr)
    (h : frameCancelled s f = true) : frameCancelled (cancelFrame s f' c) f = true := by
  unfold cancelFrame
  split
  · exact h
  · unfold frameCancelled at h ⊢
    by_cases hf : f = f'
    · subst hf; simp [List.lookup]
    · have hb : (f == f') = false := beq_eq_false_iff_ne.mpr hf
      simp only [List.lookup, hb]
      exact h

theorem ctxDone_cancelFrame_mono {s : State} {l : List Nat} (f : Nat) (c : Option GoErr)
    (h : ctxDone s l = true) : ctxDone (cancelFrame s f c) l = true := by
  unfold ctxDone at h ⊢
  obtain ⟨x, hx, hc⟩ := List.any_eq_true.mp h
  exact List.any_eq_true.mpr ⟨x, hx, frameCancelled_cancelFrame_mono f c hc⟩

theorem List.headD_mem {l : List Nat} (h : l ≠ []) : l.headD 0 ∈ l := by
  cases l with
  | nil => exact absurd rfl h
  | cons x xs => simp [List.headD]

theorem List.headD_append {l : List Nat} (g : Nat) (h : l ≠ []) :
    (l ++ [g]).headD 0 = l.headD 0 := by
  cases l with
  | nil => exact absurd rfl h
  | cons x xs => simp [List.headD]

/-! ### Monotone evolution along steps

Facts preserved by every transition: a cancelled frame stays cancelled, an
entry keeps its gate chain, its head group and its accumulated errors, and a
registration keeps its identity (only its run count can grow). -/

structure Evolves (s s' : State) : Prop where
  frames : ∀ f, frameCancelled s f = true → frameCancelled s' f = true
  entries : ∀ (d : Nat) (dg : DoneGroup), s.dgs[d]? = some dg →
      ∃ dg', s'.dgs[d]? = some dg' ∧
      dg'.gateFrames = dg.gateFrames ∧
      (dg.cleanupGroups ≠ [] → dg'.cleanupGroups ≠ [] ∧
        dg'.cleanupGroups.headD 0 = dg.cleanupGroups.headD 0) ∧
      (∀ e ∈ dg.errs, e ∈ dg'.errs)
  regs : ∀ (i : Nat) (a : Action), s.actions[i]? = some a →
      ∃ a', s'.actions[i]? = some a' ∧
      a'.regDones = a.regDones ∧ a'.dgId = a.dgId ∧ a'.groupId = a.groupId ∧
      a'.kind = a.kind ∧ a.runs ≤ a'.runs

theorem Evolves.refl (s : State) : Evolves s s where
  frames := fun _ h => h
  entries := fun _ dg h => ⟨dg, h, rfl, fun hne => ⟨hne, rfl⟩, fun _ he => he⟩
  regs := fun _ a h => ⟨a, h, rfl, rfl, rfl, rfl, Nat.le_refl _⟩

theorem Evolves.trans {s s' s'' : State} (h1 : Evolves s s') (h2 : Evolves s' s'') :
    Evolves s s'' where
  frames := fun f hf => h2.frames f (h1.frames f hf)
  entries := by
    intro d dg hd
    obtain ⟨dg1, hd1, hg1, hn1, he1⟩ := h1.entries d dg hd
    obtain ⟨dg2, hd2, hg2, hn2, he2⟩ := h2.entries d dg1 hd1
    refine ⟨dg2, hd2, hg2.trans hg1, ?_, fun e he => he2 e (he1 e he)⟩
    intro hne
    obtain ⟨hne1, hh1⟩ := hn1 hne
    obtain ⟨hne2, hh2⟩ := hn2 hne1
    exact ⟨hne2, hh2.trans hh1⟩
  regs := by
    intro i a ha
    obtain ⟨a1, ha1, h11, h12, h13, h14, h15⟩ := h1.regs i a ha
    obtain ⟨a2, ha2, h21, h22, h23, h24, h25⟩ := h2.regs i a1 ha1
    exact ⟨a2, ha2, h21.trans h11, h22.trans h12, h23.trans h13, h24.trans h14,
      h15.trans h25⟩

theorem Evolves.ctxDone {s s' : State} (ev : Evolves s s') {l : List Nat}
    (h : ctxDone s l = true) : ctxDone s' l = true := by
  unfold Donegroup.ctxDone at h ⊢
  obtain ⟨x, hx, hc⟩ := List.any_eq_true.mp h
  exact List.any_eq_true.mpr ⟨x, hx, ev.frames x hc⟩

theorem Evolves.gateDone {s s' : State} (ev : Evolves s s') {d : Nat}
    (h : gateDoneOfDg s d = true) : gateDoneOfDg s' d = true := by
  unfold gateDoneOfDg at h ⊢
  cases hd : s.dgs[d]? with
  | none => rw [hd] at h; exact absurd h (by simp)
  | some dg =>
    rw [hd] at h
    obtain ⟨dg', hd', hg', _, _⟩ := ev.entries d dg hd
    rw [hd']
    show Donegroup.ctxDone s' dg'.gateFrames = true
    rw [hg']
    exact ev.ctxDone (show Donegroup.ctxDone s dg.gateFrames = true from h)

/-! ### `Evolves` holds along every step -/

theorem evolves_parts {s s' : State}
    (hc : s'.cancelled = s.cancelled)
    (hd : ∃ l, s'.dgs = s.dgs ++ l)
    (ha : ∃ l, s'.actions = s.actions ++ l) : Evolves s s' where
  frames := by
    intro f h
    unfold frameCancelled at h ⊢
    rw [hc]; exact h
  entries := by
    intro d dg h
    obtain ⟨l, hl⟩ := hd
    have hlt : d < s.dgs.length := (List.getElem?_eq_some.mp h).1
    refine ⟨dg, ?_, rfl, fun hne => ⟨hne, rfl⟩, fun _ he => he⟩
    rw [hl]
    simpa [List.getElem?_append, hlt] using h
  regs := by
    intro i a h
    obtain ⟨l, hl⟩ := ha
    have hlt : i < s.actions.length := (List.getElem?_eq_some.mp h).1
    refine ⟨a, ?_, rfl, rfl, rfl, rfl, Nat.le_refl _⟩
    rw [hl]
    simpa [List.getElem?_append, hlt] using h

theorem evolves_cancelFrame (s : State) (f : Nat) (c : Option GoErr) :
    Evolves s (cancelFrame s f c) where
  frames := fun _ h => frameCancelled_cancelFrame_mono f c h
  entries := by
    intro d dg h
    rw [cancelFrame_dgs]
    exact ⟨dg, h, rfl, fun hne => ⟨hne, rfl⟩, fun _ he => he⟩
  regs := by
    intro i a h
    rw [cancelFrame_actions]
    exact ⟨a, h, rfl, rfl, rfl, rfl, Nat.le_refl _⟩

theorem appendErr_cancelled (s : State) (d : Nat) (e : Option GoErr) :
    (appendErr s d e).cancelled = s.cancelled := by
  unfold appendErr
  rcases e with _ | err
  · rfl
  · cases hdg : s.dgs[d]? <;> simp [hdg]

theorem appendErr_actions (s : State) (d : Nat) (e : Option GoErr) :
    (appendErr s d e).actions = s.actions := by
  unfold appendErr
  rcases e with _ | err
  · rfl
  · cases hdg : s.dgs[d]? <;> simp [hdg]

theorem appendErr_waits (s : State) (d : Nat) (e : Option GoErr) :
    (appendErr s d e).waits = s.waits := by
  unfold appendErr
  rcases e with _ | err
  · rfl
  · cases hdg : s.dgs[d]? <;> simp [hdg]

theorem appendErr_gos (s : State) (d : Nat) (e : Option GoErr) :
    (appendErr s d e).gos = s.gos := by
  unfold appendErr
  rcases e with _ | err
  · rfl
  · cases hdg : s.dgs[d]? <;> simp [hdg]

theorem appendErr_ctxs (s : State) (d : Nat) (e : Option GoErr) :
    (appendErr s d e).ctxs = s.ctxs := by
  unfold appendErr
  rcases e with _ | err
  · rfl
  · cases hdg : s.dgs[d]? <;> simp [hdg]

theorem evolves_appendErr (s : State) (d : Nat) (e : Option GoErr) :
    Evolves s (appendErr s d e) where
  frames := by
    intro f h
    unfold frameCancelled at h ⊢
    rw [appendErr_cancelled]; exact h
  entries := by
    intro q dg h
    unfold appendErr
    split
    · exact ⟨dg, h, rfl, fun hne => ⟨hne, rfl⟩, fun _ he => he⟩
    · rename_i err
      split
      · exact ⟨dg, h, rfl, fun hne => ⟨hne, rfl⟩, fun _ he => he⟩
      · rename_i dgd hdg
        by_cases hq : d = q
        · subst hq
          rw [hdg] at h
          obtain rfl : dgd = dg := Option.some.inj h
          have hlt : d < s.dgs.length := (List.getElem?_eq_some.mp hdg).1
          refine ⟨{ dgd with errs := dgd.errs ++ [err] }, ?_, rfl,
            fun hne => ⟨hne, rfl⟩, fun x hx => by simp [hx]⟩
          show (s.dgs.set d _)[d]? = _
          simp [List.getElem?_set_self, hlt]
        · refine ⟨dg, ?_, rfl, fun hne => ⟨hne, rfl⟩, fun _ he => he⟩
          show (s.dgs.set d _)[q]? = _
          simpa [List.getElem?_set_ne, hq] using h
  regs := by
    intro i a h
    rw [appendErr_actions]
    exact ⟨a, h, rfl, rfl, rfl, rfl, Nat.le_refl _⟩

theorem evolves_set_runs (s : State) (i : Nat) (a : Action)
    (ha : s.actions[i]? = some a) (n : Nat) (hn : a.runs ≤ n) :
    Evolves s { s with actions := s.actions.set i { a with runs := n } } where
  frames := fun _ h => h
  entries := fun _ dg h => ⟨dg, h, rfl, fun hne => ⟨hne, rfl⟩, fun _ he => he⟩
  regs := by
    intro j b hb
    by_cases hij : i = j
    · subst hij
      rw [ha] at hb
      obtain rfl : a = b := Option.some.inj hb
      refine ⟨{ a with runs := n }, ?_, rfl, rfl, rfl, rfl, hn⟩
      show (s.actions.set i _)[i]? = _
      simp [List.getElem?_set_self, (List.getElem?_eq_some.mp ha).1]
    · refine ⟨b, ?_, rfl, rfl, rfl, rfl, Nat.le_refl _⟩
      show (s.actions.set i _)[j]? = _
      simpa [List.getElem?_set_ne, hij] using hb

theorem evolves_runAction (s : State) (i : Nat) (pick : Bool) :
    Evolves s (runActionOp s i pick) := by
  unfold runActionOp
  split
  · exact Evolves.refl s
  · rename_i a ha
    have ha1 : (appendErr s a.dgId (actionResult s a pick)).actions[i]? = some a := by
      rw [appendErr_actions]; exact ha
    exact (evolves_appendErr s a.dgId (actionResult s a pick)).trans
      (evolves_set_runs _ i a ha1 (a.runs + 1) (Nat.le_succ _))

theorem evolves_waitStart (s : State) (c : Ctx) (l : List Nat) :
    Evolves s (waitWithContextAndKey s c l).1 := by
  unfold waitWithContextAndKey
  split
  · exact Evolves.refl s
  · split
    · exact Evolves.refl s
    · rename_i oscr d hc iscr dg hdg
      constructor
      · intro f h; exact h
      · intro q dgq hq
        by_cases hdq : d = q
        · subst hdq
          rw [hdg] at hq
          obtain rfl : dg = dgq := Option.some.inj hq
          have hlt : d < s.dgs.length := (List.getElem?_eq_some.mp hdg).1
          refine ⟨{ dg with ctxw := some l }, ?_, rfl,
            fun hne => ⟨hne, rfl⟩, fun _ he => he⟩
          show (s.dgs.set d _)[d]? = _
          simp [List.getElem?_set_self, hlt]
        · refine ⟨dgq, ?_, rfl, fun hne => ⟨hne, rfl⟩, fun _ he => he⟩
          show (s.dgs.set d _)[q]? = _
          simpa [List.getElem?_set_ne, hdq] using hq
      · intro j b hb
        exact ⟨b, hb, rfl, rfl, rfl, rfl, Nat.le_refl _⟩

theorem evolves_waitGate (s : State) (wi : Nat) : Evolves s (waitGateOp s wi) := by
  unfold waitGateOp
  split
  · exact Evolves.refl s
  · split
    · exact Evolves.refl s
    · rename_i oscr w hw iscr dg hdg
      refine (evolves_cancelFrame s (dg.gateFrames.headD 0) none).trans ?_
      constructor
      · intro f h; exact h
      · intro q dgq hq
        refine ⟨dgq, ?_, rfl, fun hne => ⟨hne, rfl⟩, fun _ he => he⟩
        exact hq
      · intro j b hb; exact ⟨b, hb, rfl, rfl, rfl, rfl, Nat.le_refl _⟩

theorem evolves_waitFinish (s : State) (wi : Nat) : Evolves s (waitFinishOp s wi) := by
  unfold waitFinishOp
  split
  · exact Evolves.refl s
  · split
    · exact Evolves.refl s
    · exact evolves_parts rfl ⟨[], by simp⟩ ⟨[], by simp⟩

theorem evolves_runGo (s : State) (i : Nat) : Evolves s (runGoOp s i) := by
  unfold runGoOp
  split
  · exact Evolves.refl s
  · rename_i t ht
    refine ((evolves_appendErr s t.dgId t.ret).trans
      (evolves_cancelFrame _ t.ctxxFrame none)).trans ?_
    constructor
    · intro f h; exact h
    · intro q dgq hq; exact ⟨dgq, hq, rfl, fun hne => ⟨hne, rfl⟩, fun _ he => he⟩
    · intro j b hb; exact ⟨b, hb, rfl, rfl, rfl, rfl, Nat.le_refl _⟩

theorem awaiterWithKey_fst (s : State) (c : Ctx) :
    (awaiterWithKey s c).1 =
      (cleanupWithKey (allocFrame s) c (ActKind.awaiter s.nextFrame)).1 := by
  unfold awaiterWithKey
  split <;> rfl

theorem cleanupWithKey_fst_parts (s : State) (c : Ctx) (k : ActKind) :
    (cleanupWithKey s c k).1.cancelled = s.cancelled ∧
    (cleanupWithKey s c k).1.dgs = s.dgs ∧
    (cleanupWithKey s c k).1.ctxs = s.ctxs ∧
    (cleanupWithKey s c k).1.waits = s.waits ∧
    (cleanupWithKey s c k).1.gos = s.gos ∧
    (∃ l, (cleanupWithKey s c k).1.actions = s.actions ++ l) := by
  unfold cleanupWithKey
  split
  · exact ⟨rfl, rfl, rfl, rfl, rfl, [], by simp⟩
  · split
    · exact ⟨rfl, rfl, rfl, rfl, rfl, [], by simp⟩
    · exact ⟨rfl, rfl, rfl, rfl, rfl, [_], rfl⟩

theorem evolves_cleanup (s : State) (c : Ctx) (k : ActKind) :
    Evolves s (cleanupWithKey s c k).1 := by
  obtain ⟨h1, h2, _, _, _, h6⟩ := cleanupWithKey_fst_parts s c k
  exact evolves_parts h1 ⟨[], by simp [h2]⟩ h6

theorem evolves_allocFrame (s : State) : Evolves s (allocFrame s) :=
  evolves_parts rfl ⟨[], by simp [allocFrame]⟩ ⟨[], by simp [allocFrame]⟩

theorem evolves_awaiter (s : State) (c : Ctx) : Evolves s (awaiterWithKey s c).1 := by
  rw [awaiterWithKey_fst]
  exact (evolves_allocFrame s).trans (evolves_cleanup _ c _)

theorem evolves_go (s : State) (c : Ctx) (fret : Option GoErr) :
    Evolves s (goWithKey s c fret).1 := by
  unfold goWithKey
  split
  · exact Evolves.refl s
  · split
    · exact evolves_awaiter s c
    · refine (evolves_awaiter s c).trans ?_
      constructor
      · intro f hf; exact hf
      · intro q dgq hq; exact ⟨dgq, hq, rfl, fun hne => ⟨hne, rfl⟩, fun _ he => he⟩
      · intro j b hb; exact ⟨b, hb, rfl, rfl, rfl, rfl, Nat.le_refl _⟩

theorem evolves_newScope (s : State) (ci : Nat) : Evolves s (newScopeOp s ci) := by
  unfold newScopeOp withCancelCauseWithKey withDoneGroup
  split
  · refine evolves_parts rfl ⟨_, rfl⟩ ⟨[], by simp [allocFrame]⟩
  · split
    · exact evolves_parts rfl ⟨[], by simp [allocFrame]⟩ ⟨[], by simp [allocFrame]⟩
    · rename_i oscr p hp iscr pdg hdg
      have hdg2 : s.dgs[p]? = some pdg := hdg
      have hlt : p < s.dgs.length := (List.getElem?_eq_some.mp hdg2).1
      constructor
      · intro f h; exact h
      · intro q dgq hq
        by_cases hpq : p = q
        · subst hpq
          rw [hdg2] at hq
          obtain rfl : pdg = dgq := Option.some.inj hq
          refine ⟨{ pdg with cleanupGroups := pdg.cleanupGroups ++ [s.nextGroup] }, ?_,
            rfl, ?_, fun _ he => he⟩
          · show ((s.dgs.set p _ ++ [_] : List DoneGroup))[p]? = _
            simp [allocFrame, List.getElem?_append, List.getElem?_set_self, hlt]
          · intro hne
            exact ⟨by simp, List.headD_append _ hne⟩
        · have hltq : q < s.dgs.length := (List.getElem?_eq_some.mp hq).1
          refine ⟨dgq, ?_, rfl, fun hne => ⟨hne, rfl⟩, fun _ he => he⟩
          show ((s.dgs.set p _ ++ [_] : List DoneGroup))[q]? = _
          simp [List.getElem?_append, List.getElem?_set_ne, hpq, hltq, hq]
          obtain ⟨_, h2⟩ := List.getElem?_eq_some.mp hq
          exact h2
      · intro j b hb
        exact ⟨b, hb, rfl, rfl, rfl, rfl, Nat.le_refl _⟩

theorem evolves_plainDerive (s : State) (ci : Nat) : Evolves s (plainDeriveOp s ci) :=
  evolves_parts rfl ⟨[], by simp [plainDeriveOp]⟩ ⟨[], by simp [plainDeriveOp]⟩

theorem step_evolves {s s' : State} (h : Step s s') : Evolves s s' := by
  cases h with
  | newScope ci h => exact evolves_newScope s ci
  | plainDerive ci h => exact evolves_plainDerive s ci
  | newFrame => exact evolves_allocFrame s
  | cancel f cause => exact evolves_cancelFrame s f cause
  | cleanup ci ret h => exact evolves_cleanup s _ _
  | awaiterCall ci h => exact evolves_awaiter s _
  | goCall ci fret h => exact evolves_go s _ fret
  | waitStart ci l h => exact evolves_waitStart s _ l
  | runAct i pick h => exact evolves_runAction s i pick
  | runGo i h => exact evolves_runGo s i
  | waitGate wi h => exact evolves_waitGate s wi
  | waitFinish wi h => exact evolves_waitFinish s wi

theorem reachableFrom_evolves {s s' : State} (h : ReachableFrom s s') : Evolves s s' := by
  induction h with
  | refl => exact Evolves.refl _
  | step _ hstep ih => exact ih.trans (step_evolves hstep)

/-! ### The global invariant

Facts that hold in every reachable state: a context's entry pointer is live
and its group list non-empty; a registration runs at most once, only after its
context and its entry's gate are done, into the head group of its entry; an
in-flight wait whose join has started has its entry's head group in its
snapshot; a non-empty accumulated error, and a spawned `Go` goroutine, are
witnessed by a registration on the same entry; a completed registration's
returned error is in its entry's accumulated error. -/

structure Inv (s : State) : Prop where
  ctxOk : ∀ c ∈ s.ctxs, ∀ d : Nat, c.dg = some d →
      ∃ dg, s.dgs[d]? = some dg ∧ dg.cleanupGroups ≠ []
  runsLe : ∀ a ∈ s.actions, a.runs ≤ 1
  ranDone : ∀ a ∈ s.actions, a.runs ≠ 0 →
      ctxDone s a.regDones = true ∧ gateDoneOfDg s a.dgId = true
  actOk : ∀ a ∈ s.actions, ∃ dg, s.dgs[a.dgId]? = some dg ∧
      dg.cleanupGroups ≠ [] ∧ a.groupId = dg.cleanupGroups.headD 0
  waitOk : ∀ w ∈ s.waits, ∃ dg, s.dgs[w.dgId]? = some dg ∧ dg.cleanupGroups ≠ [] ∧
      (w.phase ≠ WaitPhase.blocked → dg.cleanupGroups.headD 0 ∈ w.snapshot)
  errsOk : ∀ (d : Nat) (dg : DoneGroup), s.dgs[d]? = some dg → dg.errs ≠ [] →
      ∃ a ∈ s.actions, a.dgId = d
  retErr : ∀ a ∈ s.actions, a.runs ≠ 0 → ∀ e : GoErr, a.kind = ActKind.user (some e) →
      ∃ dg, s.dgs[a.dgId]? = some dg ∧ e ∈ dg.errs
  gosOk : ∀ t ∈ s.gos, ∃ a ∈ s.actions, a.dgId = t.dgId

theorem actOk_transfer {s s' : State} (ev : Evolves s s')
    (hmem : ∀ a ∈ s'.actions, a ∈ s.actions)
    (h : ∀ a ∈ s.actions, ∃ dg, s.dgs[a.dgId]? = some dg ∧
      dg.cleanupGroups ≠ [] ∧ a.groupId = dg.cleanupGroups.headD 0) :
    ∀ a ∈ s'.actions, ∃ dg, s'.dgs[a.dgId]? = some dg ∧
      dg.cleanupGroups ≠ [] ∧ a.groupId = dg.cleanupGroups.headD 0 := by
  intro a ha
  obtain ⟨dg, hd, hne, hg⟩ := h a (hmem a ha)
  obtain ⟨dg', hd', _, hne', _⟩ := ev.entries _ dg hd
  obtain ⟨hne2, hh⟩ := hne' hne
  exact ⟨dg', hd', hne2, hg.trans hh.symm⟩

theorem waitOk_transfer {s s' : State} (ev : Evolves s s')
    (hmem : ∀ w ∈ s'.waits, w ∈ s.waits)
    (h : ∀ w ∈ s.waits, ∃ dg, s.dgs[w.dgId]? = some dg ∧ dg.cleanupGroups ≠ [] ∧
      (w.phase ≠ WaitPhase.blocked → dg.cleanupGroups.headD 0 ∈ w.snapshot)) :
    ∀ w ∈ s'.waits, ∃ dg, s'.dgs[w.dgId]? = some dg ∧ dg.cleanupGroups ≠ [] ∧
      (w.phase ≠ WaitPhase.blocked → dg.cleanupGroups.headD 0 ∈ w.snapshot) := by
  intro w hw
  obtain ⟨dg, hd, hne, hsnap⟩ := h w (hmem w hw)
  obtain ⟨dg', hd', _, hne', _⟩ := ev.entries _ dg hd
  obtain ⟨hne2, hh⟩ := hne' hne
  refine ⟨dg', hd', hne2, fun hph => ?_⟩
  rw [hh]
  exact hsnap hph

theorem ctxOk_transfer {s s' : State} (ev : Evolves s s')
    (hmem : ∀ c ∈ s'.ctxs, c ∈ s.ctxs)
    (h : ∀ c ∈ s.ctxs, ∀ d : Nat, c.dg = some d →
      ∃ dg, s.dgs[d]? = some dg ∧ dg.cleanupGroups ≠ []) :
    ∀ c ∈ s'.ctxs, ∀ d : Nat, c.dg = some d →
      ∃ dg, s'.dgs[d]? = some dg ∧ dg.cleanupGroups ≠ [] := by
  intro c hc d hd
  obtain ⟨dg, hdg, hne⟩ := h c (hmem c hc) d hd
  obtain ⟨dg', hd', _, hne', _⟩ := ev.entries _ dg hdg
  exact ⟨dg', hd', (hne' hne).1⟩

theorem getD_mem_of_lt {l : List Ctx} {i : Nat} (h : i < l.length) :
    l.getD i default ∈ l := by
  rw [List.getD_eq_getElem l default h]
  exact List.getElem_mem h

theorem getElem?_getD {l : List Ctx} {i : Nat} (h : i < l.length) :
    l[i]? = some (l.getD i default) := by
  rw [List.getD_eq_getElem l default h]
  exact List.getElem?_eq_getElem h

theorem inv_cancelFrame {s : State} (hInv : Inv s) (f : Nat) (cause : Option GoErr) :
    Inv (cancelFrame s f cause) := by
  have ev := evolves_cancelFrame s f cause
  constructor
  · intro c hc d hd
    rw [cancelFrame_ctxs] at hc
    rw [cancelFrame_dgs]
    exact hInv.ctxOk c hc d hd
  · intro a ha
    rw [cancelFrame_actions] at ha
    exact hInv.runsLe a ha
  · intro a ha hr
    rw [cancelFrame_actions] at ha
    obtain ⟨h1, h2⟩ := hInv.ranDone a ha hr
    exact ⟨ev.ctxDone h1, ev.gateDone h2⟩
  · intro a ha
    rw [cancelFrame_actions] at ha
    rw [cancelFrame_dgs]
    exact hInv.actOk a ha
  · intro w hw
    rw [cancelFrame_waits] at hw
    rw [cancelFrame_dgs]
    exact hInv.waitOk w hw
  · intro d dg hd he
    rw [cancelFrame_dgs] at hd
    rw [cancelFrame_actions]
    exact hInv.errsOk d dg hd he
  · intro a ha hr e hk
    rw [cancelFrame_actions] at ha
    rw [cancelFrame_dgs]
    exact hInv.retErr a ha hr e hk
  · intro t ht
    rw [cancelFrame_gos] at ht
    rw [cancelFrame_actions]
    exact hInv.gosOk t ht

theorem inv_allocFrame {s : State} (hInv : Inv s) : Inv (allocFrame s) := by
  constructor
  · exact hInv.ctxOk
  · exact hInv.runsLe
  · exact hInv.ranDone
  · exact hInv.actOk
  · exact hInv.waitOk
  · exact hInv.errsOk
  · exact hInv.retErr
  · exact hInv.gosOk

theorem inv_plainDerive {s : State} (hInv : Inv s) (ci : Nat) (h : ci < s.ctxs.length) :
    Inv (plainDeriveOp s ci) := by
  constructor
  · intro c hc d hd
    rcases List.mem_append.mp hc with hold | hnew
    · exact hInv.ctxOk c hold d hd
    · have hc2 := List.mem_singleton.mp hnew
      subst hc2
      exact hInv.ctxOk _ (getD_mem_of_lt h) d hd
  · exact hInv.runsLe
  · exact hInv.ranDone
  · exact hInv.actOk
  · exact hInv.waitOk
  · exact hInv.errsOk
  · exact hInv.retErr
  · exact hInv.gosOk

theorem getElem?_append_cases {α : Type} (l1 l2 : List α) (d : Nat) (x : α)
    (h : (l1 ++ l2)[d]? = some x) : l1[d]? = some x ∨ x ∈ l2 := by
  by_cases hlt : d < l1.length
  · left; simpa [List.getElem?_append, hlt] using h
  · right
    rw [List.getElem?_append, if_neg hlt] at h
    exact List.getElem?_mem h

theorem getElem?_set_cases {α : Type} (l : List α) (p d : Nat) (y x : α)
    (h : (l.set p y)[d]? = some x) : l[d]? = some x ∨ (d = p ∧ x = y) := by
  by_cases hpd : p = d
  · subst hpd
    have hlt : p < l.length := by
      have := (List.getElem?_eq_some.mp h).1
      simpa using this
    rw [List.getElem?_set_self hlt] at h
    exact Or.inr ⟨rfl, (Option.some.inj h).symm⟩
  · left
    rw [List.getElem?_set_ne hpd] at h
    exact h

theorem runsLe_transfer {s s' : State}
    (hmem : ∀ a ∈ s'.actions, a ∈ s.actions ∨ a.runs = 0)
    (h : ∀ a ∈ s.actions, a.runs ≤ 1) : ∀ a ∈ s'.actions, a.runs ≤ 1 := by
  intro a ha
  rcases hmem a ha with hold | hz
  · exact h a hold
  · omega

theorem ranDone_transfer {s s' : State} (ev : Evolves s s')
    (hmem : ∀ a ∈ s'.actions, a ∈ s.actions ∨ a.runs = 0)
    (h : ∀ a ∈ s.actions, a.runs ≠ 0 →
      ctxDone s a.regDones = true ∧ gateDoneOfDg s a.dgId = true) :
    ∀ a ∈ s'.actions, a.runs ≠ 0 →
      ctxDone s' a.regDones = true ∧ gateDoneOfDg s' a.dgId = true := by
  intro a ha hr
  rcases hmem a ha with hold | hz
  · obtain ⟨h1, h2⟩ := h a hold hr
    exact ⟨ev.ctxDone h1, ev.gateDone h2⟩
  · exact absurd hz hr

theorem retErr_transfer {s s' : State} (ev : Evolves s s')
    (hmem : ∀ a ∈ s'.actions, a ∈ s.actions ∨ a.runs = 0)
    (h : ∀ a ∈ s.actions, a.runs ≠ 0 → ∀ e : GoErr, a.kind = ActKind.user (some e) →
      ∃ dg, s.dgs[a.dgId]? = some dg ∧ e ∈ dg.errs) :
    ∀ a ∈ s'.actions, a.runs ≠ 0 → ∀ e : GoErr, a.kind = ActKind.user (some e) →
      ∃ dg, s'.dgs[a.dgId]? = some dg ∧ e ∈ dg.errs := by
  intro a ha hr e hk
  rcases hmem a ha with hold | hz
  · obtain ⟨dg, hd, he⟩ := h a hold hr e hk
    obtain ⟨dg', hd', _, _, herr⟩ := ev.entries _ dg hd
    exact ⟨dg', hd', herr e he⟩
  · exact absurd hz hr

theorem gosOk_transfer {s s' : State}
    (hg : ∀ t ∈ s'.gos, t ∈ s.gos ∨ ∃ a ∈ s'.actions, a.dgId = t.dgId)
    (ha : ∀ a ∈ s.actions, a ∈ s'.actions)
    (h : ∀ t ∈ s.gos, ∃ a ∈ s.actions, a.dgId = t.dgId) :
    ∀ t ∈ s'.gos, ∃ a ∈ s'.actions, a.dgId = t.dgId := by
  intro t ht
  rcases hg t ht with hold | hnew
  · obtain ⟨a, haa, hd⟩ := h t hold
    exact ⟨a, ha a haa, hd⟩
  · exact hnew

/-- Scope creation with no entry on the parent: the root case of
`withDoneGroup`, fully evaluated. -/
theorem newScopeOp_root {s : State} {ci : Nat}
    (hc : (s.ctxs.getD ci default).dg = none) :
    newScopeOp s ci = { s with
      nextFrame := s.nextFrame + 2,
      nextGroup := s.nextGroup + 1,
      dgs := s.dgs ++
        [{ cancelFrame := s.nextFrame, gateFrames := [s.nextFrame + 1],
           cleanupGroups := [s.nextGroup], ctxw := none, errs := [] }],
      ctxs := s.ctxs ++
        [{ dones := s.nextFrame :: (s.ctxs.getD ci default).dones,
           dg := some s.dgs.length }] } := by
  have hc2 : (s.ctxs[ci]?.getD default).dg = none := by simpa using hc
  unfold newScopeOp withCancelCauseWithKey withDoneGroup allocFrame
  simp [hc2]

/-- Scope creation under a parent entry: the leaf case of `withDoneGroup`,
fully evaluated — the fresh group is appended to the parent's list. -/
theorem newScopeOp_leaf {s : State} {ci : Nat} {p : Nat} {pdg : DoneGroup}
    (hc : (s.ctxs.getD ci default).dg = some p)
    (hp : s.dgs[p]? = some pdg) :
    newScopeOp s ci = { s with
      nextFrame := s.nextFrame + 2,
      nextGroup := s.nextGroup + 1,
      dgs := (s.dgs.set p
          { pdg with cleanupGroups := pdg.cleanupGroups ++ [s.nextGroup] }) ++
        [{ cancelFrame := s.nextFrame, gateFrames := (s.nextFrame + 1) :: pdg.gateFrames,
           cleanupGroups := [s.nextGroup], ctxw := none, errs := [] }],
      ctxs := s.ctxs ++
        [{ dones := s.nextFrame :: (s.ctxs.getD ci default).dones,
           dg := some s.dgs.length }] } := by
  have hc2 : (s.ctxs[ci]?.getD default).dg = some p := by simpa using hc
  unfold newScopeOp withCancelCauseWithKey withDoneGroup allocFrame
  simp [hc2, hp]

theorem inv_newScope {s : State} (hInv : Inv s) (ci : Nat) (h : ci < s.ctxs.length) :
    Inv (newScopeOp s ci) := by
  have ev := evolves_newScope s ci
  have hcm : s.ctxs.getD ci default ∈ s.ctxs := getD_mem_of_lt h
  cases hc : (s.ctxs.getD ci default).dg with
  | none =>
      rw [newScopeOp_root hc] at ev ⊢
      constructor
      · intro c hcx d hd
        rcases List.mem_append.mp hcx with hold | hnew
        · obtain ⟨dg, hdg, hne⟩ := hInv.ctxOk c hold d hd
          have hlt : d < s.dgs.length := (List.getElem?_eq_some.mp hdg).1
          refine ⟨dg, ?_, hne⟩
          show (s.dgs ++ [_] : List DoneGroup)[d]? = some dg
          simpa [List.getElem?_append, hlt] using hdg
        · have hc2 := List.mem_singleton.mp hnew
          subst hc2
          obtain rfl : s.dgs.length = d := by simpa using hd
          refine ⟨{ cancelFrame := s.nextFrame, gateFrames := [s.nextFrame + 1],
                    cleanupGroups := [s.nextGroup], ctxw := none, errs := [] }, ?_, by simp⟩
          show (s.dgs ++ [_] : List DoneGroup)[s.dgs.length]? = _
          simp
      · exact runsLe_transfer (fun a ha => Or.inl ha) hInv.runsLe
      · exact ranDone_transfer ev (fun a ha => Or.inl ha) hInv.ranDone
      · exact actOk_transfer ev (fun a ha => ha) hInv.actOk
      · exact waitOk_transfer ev (fun w hw => hw) hInv.waitOk
      · intro d dg hd he
        rcases getElem?_append_cases _ _ _ _ hd with hold | hnew
        · exact hInv.errsOk d dg hold he
        · have := List.mem_singleton.mp hnew
          subst this
          simp at he
      · exact retErr_transfer ev (fun a ha => Or.inl ha) hInv.retErr
      · exact gosOk_transfer (fun t ht => Or.inl ht) (fun a ha => ha) hInv.gosOk
  | some p =>
      obtain ⟨pdg, hp, hpne⟩ := hInv.ctxOk _ hcm p hc
      rw [newScopeOp_leaf hc hp] at ev ⊢
      constructor
      · intro c hcx d hd
        rcases List.mem_append.mp hcx with hold | hnew
        · obtain ⟨dg, hdg, hne⟩ := hInv.ctxOk c hold d hd
          obtain ⟨dg', hd', _, hne', _⟩ := ev.entries d dg hdg
          exact ⟨dg', hd', (hne' hne).1⟩
        · have hc2 := List.mem_singleton.mp hnew
          subst hc2
          obtain rfl : s.dgs.length = d := by simpa using hd
          refine ⟨{ cancelFrame := s.nextFrame, gateFrames := (s.nextFrame + 1) :: pdg.gateFrames,
                    cleanupGroups := [s.nextGroup], ctxw := none, errs := [] }, ?_, by simp⟩
          show ((s.dgs.set p _ ++ [_] : List DoneGroup))[s.dgs.length]? = _
          rw [List.getElem?_append, if_neg (by simp)]
          simp
      · exact runsLe_transfer (fun a ha => Or.inl ha) hInv.runsLe
      · exact ranDone_transfer ev (fun a ha => Or.inl ha) hInv.ranDone
      · exact actOk_transfer ev (fun a ha => ha) hInv.actOk
      · exact waitOk_transfer ev (fun w hw => hw) hInv.waitOk
      · intro d dg hd he
        rcases getElem?_append_cases _ _ _ _ hd with hset | hnew
        · rcases getElem?_set_cases _ _ _ _ _ hset with hold | ⟨rfl, rfl⟩
          · exact hInv.errsOk d dg hold he
          · exact hInv.errsOk d pdg hp (by simpa using he)
        · have := List.mem_singleton.mp hnew
          subst this
          simp at he
      · exact retErr_transfer ev (fun a ha => Or.inl ha) hInv.retErr
      · exact gosOk_transfer (fun t ht => Or.inl ht) (fun a ha => ha) hInv.gosOk

theorem cleanupWithKey_nodg {s : State} {c : Ctx} (k : ActKind) (hc : c.dg = none) :
    cleanupWithKey s c k = (s, some GoErr.notContainDoneGroup) := by
  unfold cleanupWithKey
  simp [hc]

theorem cleanupWithKey_some {s : State} {c : Ctx} {d : Nat} {dg : DoneGroup} (k : ActKind)
    (hc : c.dg = some d) (hdg : s.dgs[d]? = some dg) :
    cleanupWithKey s c k =
      ({ s with actions := s.actions ++
          [{ regDones := c.dones, dgId := d, groupId := dg.cleanupGroups.headD 0,
             kind := k, runs := 0 }] }, none) := by
  unfold cleanupWithKey
  simp [hc, hdg]

theorem inv_cleanup {s : State} (hInv : Inv s) {c : Ctx} (hcm : c ∈ s.ctxs) (k : ActKind) :
    Inv (cleanupWithKey s c k).1 := by
  cases hc : c.dg with
  | none => rw [cleanupWithKey_nodg k hc]; exact hInv
  | some d =>
      obtain ⟨dg, hdg, hne⟩ := hInv.ctxOk c hcm d hc
      rw [cleanupWithKey_some k hc hdg]
      constructor
      · intro c2 hc2 d2 hd2
        exact hInv.ctxOk c2 hc2 d2 hd2
      · intro a ha
        rcases List.mem_append.mp ha with h1 | h2
        · exact hInv.runsLe a h1
        · have := List.mem_singleton.mp h2
          subst this
          exact Nat.zero_le 1
      · intro a ha hr
        rcases List.mem_append.mp ha with h1 | h2
        · exact hInv.ranDone a h1 hr
        · have := List.mem_singleton.mp h2
          subst this
          exact absurd rfl hr
      · intro a ha
        rcases List.mem_append.mp ha with h1 | h2
        · exact hInv.actOk a h1
        · have := List.mem_singleton.mp h2
          subst this
          exact ⟨dg, hdg, hne, rfl⟩
      · intro w hw
        exact hInv.waitOk w hw
      · intro d2 dg2 hd2 he2
        obtain ⟨a, haa, hda⟩ := hInv.errsOk d2 dg2 hd2 he2
        exact ⟨a, List.mem_append.mpr (Or.inl haa), hda⟩
      · intro a ha hr e hk
        rcases List.mem_append.mp ha with h1 | h2
        · exact hInv.retErr a h1 hr e hk
        · have := List.mem_singleton.mp h2
          subst this
          exact absurd rfl hr
      · intro t ht
        obtain ⟨a, haa, hda⟩ := hInv.gosOk t ht
        exact ⟨a, List.mem_append.mpr (Or.inl haa), hda⟩

theorem inv_awaiter {s : State} (hInv : Inv s) {c : Ctx} (hcm : c ∈ s.ctxs) :
    Inv (awaiterWithKey s c).1 := by
  rw [awaiterWithKey_fst]
  exact inv_cleanup (inv_allocFrame hInv) (show c ∈ (allocFrame s).ctxs from hcm) _

theorem inv_go {s : State} (hInv : Inv s) {c : Ctx} (hcm : c ∈ s.ctxs)
    (fret : Option GoErr) : Inv (goWithKey s c fret).1 := by
  unfold goWithKey
  split
  · exact hInv
  · split
    · exact inv_awaiter hInv hcm
    · rename_i oscr d hc iscr ctxx hok
      have hA := inv_awaiter hInv hcm
      obtain ⟨dg, hdg, hne⟩ := hInv.ctxOk c hcm d hc
      have hact : ∃ a ∈ (awaiterWithKey s c).1.actions, a.dgId = d := by
        rw [awaiterWithKey_fst,
          cleanupWithKey_some (s := allocFrame s) (ActKind.awaiter s.nextFrame) hc
            (show (allocFrame s).dgs[d]? = some dg from hdg)]
        exact ⟨_, List.mem_append.mpr (Or.inr (List.mem_singleton.mpr rfl)), rfl⟩
      constructor
      · exact hA.ctxOk
      · exact hA.runsLe
      · exact hA.ranDone
      · exact hA.actOk
      · exact hA.waitOk
      · exact hA.errsOk
      · exact hA.retErr
      · intro t ht
        rcases List.mem_append.mp ht with h1 | h2
        · exact hA.gosOk t h1
        · have := List.mem_singleton.mp h2
          subst this
          exact hact

theorem set_dgId_witness {l : List Action} {i : Nat} {a a1 : Action}
    (ha : l[i]? = some a) (hid : a1.dgId = a.dgId) (d : Nat)
    (h : ∃ b ∈ l, b.dgId = d) : ∃ b ∈ l.set i a1, b.dgId = d := by
  obtain ⟨b, hb, hbd⟩ := h
  obtain ⟨j, hj⟩ := List.mem_iff_getElem?.mp hb
  by_cases hij : i = j
  · subst hij
    rw [ha] at hj
    obtain rfl : a = b := Option.some.inj hj
    refine ⟨a1, ?_, hid.trans hbd⟩
    have hlt : i < l.length := (List.getElem?_eq_some.mp ha).1
    exact List.getElem?_mem (by rw [List.getElem?_set_self hlt])
  · refine ⟨b, ?_, hbd⟩
    have : (l.set i a1)[j]? = some b := by rw [List.getElem?_set_ne hij]; exact hj
    exact List.getElem?_mem this

theorem inv_appendErr {s : State} (hInv : Inv s) (d : Nat) (e : Option GoErr)
    (hwit : ∃ a ∈ s.actions, a.dgId = d) : Inv (appendErr s d e) := by
  have ev := evolves_appendErr s d e
  constructor
  · intro c hc d2 hd2
    rw [appendErr_ctxs] at hc
    obtain ⟨dg, hdg, hne⟩ := hInv.ctxOk c hc d2 hd2
    obtain ⟨dg2, hd2x, _, hne2, _⟩ := ev.entries _ dg hdg
    exact ⟨dg2, hd2x, (hne2 hne).1⟩
  · intro a ha
    rw [appendErr_actions] at ha
    exact hInv.runsLe a ha
  · refine ranDone_transfer ev ?_ hInv.ranDone
    intro a ha
    rw [appendErr_actions] at ha
    exact Or.inl ha
  · refine actOk_transfer ev ?_ hInv.actOk
    intro a ha
    rw [appendErr_actions] at ha
    exact ha
  · refine waitOk_transfer ev ?_ hInv.waitOk
    intro w hw
    rw [appendErr_waits] at hw
    exact hw
  · intro d2 dg2 hd2 he2
    rw [appendErr_actions]
    unfold appendErr at hd2
    rcases e with _ | err
    · exact hInv.errsOk d2 dg2 hd2 he2
    · cases hdg : s.dgs[d]? with
      | none =>
          rw [hdg] at hd2
          exact hInv.errsOk d2 dg2 hd2 he2
      | some dgd =>
          rw [hdg] at hd2
          rcases getElem?_set_cases _ _ _ _ _ hd2 with hold | ⟨rfl, rfl⟩
          · exact hInv.errsOk d2 dg2 hold he2
          · exact hwit
  · refine retErr_transfer ev ?_ hInv.retErr
    intro a ha
    rw [appendErr_actions] at ha
    exact Or.inl ha
  · intro t ht
    rw [appendErr_gos] at ht
    rw [appendErr_actions]
    exact hInv.gosOk t ht

theorem waitStart_nodg {s : State} {c : Ctx} (l : List Nat) (hc : c.dg = none) :
    waitWithContextAndKey s c l = (s, some GoErr.notContainDoneGroup) := by
  unfold waitWithContextAndKey
  simp [hc]

theorem waitStart_some {s : State} {c : Ctx} {d : Nat} {dg : DoneGroup} (l : List Nat)
    (hc : c.dg = some d) (hdg : s.dgs[d]? = some dg) :
    waitWithContextAndKey s c l =
      ({ s with dgs := s.dgs.set d { dg with ctxw := some l },
                waits := s.waits ++
                  [{ scopeDones := c.dones, dgId := d, ctxwDones := l,
                     phase := WaitPhase.blocked, snapshot := [], result := none }] },
       none) := by
  unfold waitWithContextAndKey
  simp [hc, hdg]

theorem inv_waitStart {s : State} (hInv : Inv s) {c : Ctx} (hcm : c ∈ s.ctxs)
    (l : List Nat) : Inv (waitWithContextAndKey s c l).1 := by
  cases hc : c.dg with
  | none => rw [waitStart_nodg l hc]; exact hInv
  | some d =>
      obtain ⟨dg, hdg, hne⟩ := hInv.ctxOk c hcm d hc
      have hlt : d < s.dgs.length := (List.getElem?_eq_some.mp hdg).1
      have ev := evolves_waitStart s c l
      rw [waitStart_some l hc hdg] at ev ⊢
      constructor
      · exact ctxOk_transfer ev (fun c2 h2 => h2) hInv.ctxOk
      · exact runsLe_transfer (fun a ha => Or.inl ha) hInv.runsLe
      · exact ranDone_transfer ev (fun a ha => Or.inl ha) hInv.ranDone
      · exact actOk_transfer ev (fun a ha => ha) hInv.actOk
      · intro w hw
        rcases List.mem_append.mp hw with hold | hnew
        · obtain ⟨dgo, hdo, hneo, hsn⟩ := hInv.waitOk w hold
          obtain ⟨dg2, hd2, _, hne2, _⟩ := ev.entries _ dgo hdo
          obtain ⟨hne3, hh⟩ := hne2 hneo
          refine ⟨dg2, hd2, hne3, fun hph => ?_⟩
          rw [hh]
          exact hsn hph
        · have hw2 := List.mem_singleton.mp hnew
          subst hw2
          refine ⟨{ dg with ctxw := some l }, ?_, by simpa using hne,
            fun hph => absurd rfl hph⟩
          show (s.dgs.set d _)[d]? = _
          simp [List.getElem?_set_self, hlt]
      · intro d2 dg2 hd2 he2
        rcases getElem?_set_cases _ _ _ _ _ hd2 with hold | ⟨rfl, rfl⟩
        · exact hInv.errsOk d2 dg2 hold he2
        · exact hInv.errsOk d2 dg hdg (by simpa using he2)
      · intro a ha hr e hk
        obtain ⟨dgo, hdo, heo⟩ := hInv.retErr a ha hr e hk
        obtain ⟨dg2, hd2, _, _, herr⟩ := ev.entries _ dgo hdo
        exact ⟨dg2, hd2, herr e heo⟩
      · exact hInv.gosOk

theorem ctxDone_congr {s s' : State} (h : s'.cancelled = s.cancelled) (l : List Nat) :
    ctxDone s' l = ctxDone s l := by
  unfold ctxDone frameCancelled
  rw [h]

theorem appendErr_entry {s : State} {d : Nat} {dg : DoneGroup} (e : GoErr)
    (hdg : s.dgs[d]? = some dg) :
    (appendErr s d (some e)).dgs[d]? = some { dg with errs := dg.errs ++ [e] } := by
  unfold appendErr
  rw [hdg]
  show (s.dgs.set d _)[d]? = _
  simp [List.getElem?_set_self, (List.getElem?_eq_some.mp hdg).1]

theorem inv_runAct {s : State} (hInv : Inv s) (i : Nat) (pick : Bool)
    (hg : canRun s i pick = true) : Inv (runActionOp s i pick) := by
  unfold canRun at hg
  cases ha : s.actions[i]? with
  | none => rw [ha] at hg; simp at hg
  | some a =>
      rw [ha] at hg
      simp only [Bool.and_eq_true, beq_iff_eq] at hg
      obtain ⟨⟨⟨hrz, hcd⟩, hgd⟩, hkind⟩ := hg
      have hmem : a ∈ s.actions := List.getElem?_mem ha
      have hlt : i < s.actions.length := (List.getElem?_eq_some.mp ha).1
      obtain ⟨dgx, hdgx, hnex, hgx⟩ := hInv.actOk a hmem
      have hwit : ∃ b ∈ s.actions, b.dgId = a.dgId := ⟨a, hmem, rfl⟩
      have hs1 : Inv (appendErr s a.dgId (actionResult s a pick)) :=
        inv_appendErr hInv _ _ hwit
      have ev1 := evolves_appendErr s a.dgId (actionResult s a pick)
      have ha1 : (appendErr s a.dgId (actionResult s a pick)).actions[i]? = some a := by
        rw [appendErr_actions]; exact ha
      have hchar : runActionOp s i pick =
          { appendErr s a.dgId (actionResult s a pick) with
            actions := (appendErr s a.dgId (actionResult s a pick)).actions.set i
              { a with runs := a.runs + 1 } } := by
        unfold runActionOp
        simp [ha]
      rw [hchar]
      constructor
      · exact hs1.ctxOk
      · intro b hb
        rcases List.mem_or_eq_of_mem_set hb with hold | hnew
        · exact hs1.runsLe b hold
        · subst hnew
          simp [hrz]
      · intro b hb hr
        rcases List.mem_or_eq_of_mem_set hb with hold | hnew
        · exact hs1.ranDone b hold hr
        · subst hnew
          exact ⟨ev1.ctxDone hcd, ev1.gateDone hgd⟩
      · intro b hb
        rcases List.mem_or_eq_of_mem_set hb with hold | hnew
        · exact hs1.actOk b hold
        · subst hnew
          have haS : a ∈ (appendErr s a.dgId (actionResult s a pick)).actions := by
            rw [appendErr_actions]; exact hmem
          exact hs1.actOk a haS
      · exact hs1.waitOk
      · intro d2 dg2 hd2 he2
        obtain ⟨b, hb, hbd⟩ := hs1.errsOk d2 dg2 hd2 he2
        exact set_dgId_witness ha1
          (show ({ a with runs := a.runs + 1 } : Action).dgId = a.dgId from rfl) d2 ⟨b, hb, hbd⟩
      · intro b hb hr e hk
        rcases List.mem_or_eq_of_mem_set hb with hold | hnew
        · exact hs1.retErr b hold hr e hk
        · subst hnew
          have hres : actionResult s a pick = some e := by
            unfold actionResult
            rw [show a.kind = ActKind.user (some e) from hk]
          refine ⟨{ dgx with errs := dgx.errs ++ [e] }, ?_, by simp⟩
          show (appendErr s a.dgId (actionResult s a pick)).dgs[a.dgId]? = _
          rw [hres]
          exact appendErr_entry e hdgx
      · intro t ht
        obtain ⟨b, hb, hbd⟩ := hs1.gosOk t ht
        exact set_dgId_witness ha1
          (show ({ a with runs := a.runs + 1 } : Action).dgId = a.dgId from rfl) t.dgId ⟨b, hb, hbd⟩

theorem inv_runGo {s : State} (hInv : Inv s) (i : Nat) (hg : canRunGo s i = true) :
    Inv (runGoOp s i) := by
  unfold canRunGo at hg
  cases ht : s.gos[i]? with
  | none => rw [ht] at hg; simp at hg
  | some t =>
      have htm : t ∈ s.gos := List.getElem?_mem ht
      have hwit := hInv.gosOk t htm
      have hs1 : Inv (appendErr s t.dgId t.ret) := inv_appendErr hInv _ _ hwit
      have hs2 : Inv (cancelFrame (appendErr s t.dgId t.ret) t.ctxxFrame none) :=
        inv_cancelFrame hs1 _ _
      have hchar : runGoOp s i =
          { cancelFrame (appendErr s t.dgId t.ret) t.ctxxFrame none with
            gos := (cancelFrame (appendErr s t.dgId t.ret) t.ctxxFrame none).gos.set i
              { t with done := true } } := by
        unfold runGoOp
        simp [ht]
      rw [hchar]
      constructor
      · exact hs2.ctxOk
      · exact hs2.runsLe
      · exact hs2.ranDone
      · exact hs2.actOk
      · exact hs2.waitOk
      · exact hs2.errsOk
      · exact hs2.retErr
      · intro t2 ht2
        rcases List.mem_or_eq_of_mem_set ht2 with hold | hnew
        · exact hs2.gosOk t2 hold
        · subst hnew
          obtain ⟨b, hb, hbd⟩ := hwit
          refine ⟨b, ?_, hbd⟩
          rw [cancelFrame_actions, appendErr_actions]
          exact hb

theorem inv_waitGate {s : State} (hInv : Inv s) (wi : Nat) (hg : canGate s wi = true) :
    Inv (waitGateOp s wi) := by
  unfold canGate at hg
  cases hw : s.waits[wi]? with
  | none => rw [hw] at hg; simp at hg
  | some w =>
      rw [hw] at hg
      simp only [Bool.and_eq_true, beq_iff_eq] at hg
      obtain ⟨hph, hdone⟩ := hg
      have hwm : w ∈ s.waits := List.getElem?_mem hw
      obtain ⟨dg, hdg, hne, _⟩ := hInv.waitOk w hwm
      have hchar : waitGateOp s wi =
          { cancelFrame s (dg.gateFrames.headD 0) none with
            waits := (cancelFrame s (dg.gateFrames.headD 0) none).waits.set wi
              { w with phase := WaitPhase.joining, snapshot := dg.cleanupGroups } } := by
        unfold waitGateOp
        simp [hw, hdg]
      rw [hchar]
      have hs2 : Inv (cancelFrame s (dg.gateFrames.headD 0) none) :=
        inv_cancelFrame hInv _ _
      constructor
      · exact hs2.ctxOk
      · exact hs2.runsLe
      · exact hs2.ranDone
      · exact hs2.actOk
      · intro w2 hw2
        rcases List.mem_or_eq_of_mem_set hw2 with hold | hnew
        · exact hs2.waitOk w2 hold
        · subst hnew
          refine ⟨dg, ?_, hne, fun _ => List.headD_mem hne⟩
          show (cancelFrame s _ none).dgs[w.dgId]? = some dg
          rw [cancelFrame_dgs]
          exact hdg
      · exact hs2.errsOk
      · exact hs2.retErr
      · exact hs2.gosOk

theorem inv_waitFinish {s : State} (hInv : Inv s) (wi : Nat)
    (hg : canFinish s wi = true) : Inv (waitFinishOp s wi) := by
  unfold canFinish at hg
  cases hw : s.waits[wi]? with
  | none => rw [hw] at hg; simp at hg
  | some w =>
      rw [hw] at hg
      simp only [Bool.and_eq_true, beq_iff_eq] at hg
      obtain ⟨hph, _⟩ := hg
      have hwm : w ∈ s.waits := List.getElem?_mem hw
      obtain ⟨dg, hdg, hne, hsn⟩ := hInv.waitOk w hwm
      have hchar : waitFinishOp s wi =
          { s with waits :=
              s.waits.set wi { w with phase := WaitPhase.finished, result := some dg.errs } } := by
        unfold waitFinishOp
        simp [hw, hdg]
      rw [hchar]
      constructor
      · exact hInv.ctxOk
      · exact hInv.runsLe
      · exact hInv.ranDone
      · exact hInv.actOk
      · intro w2 hw2
        rcases List.mem_or_eq_of_mem_set hw2 with hold | hnew
        · exact hInv.waitOk w2 hold
        · subst hnew
          exact ⟨dg, hdg, hne, fun _ => hsn (by simp [hph])⟩
      · exact hInv.errsOk
      · exact hInv.retErr
      · exact hInv.gosOk

theorem inv_init : Inv init := by
  constructor
  · intro c hc d hd
    have := List.mem_singleton.mp hc
    subst this
    exact Option.noConfusion hd
  · intro a ha
    exact absurd ha (List.not_mem_nil a)
  · intro a ha
    exact absurd ha (List.not_mem_nil a)
  · intro a ha
    exact absurd ha (List.not_mem_nil a)
  · intro w hw
    exact absurd hw (List.not_mem_nil w)
  · intro d dg hd
    simp [init] at hd
  · intro a ha
    exact absurd ha (List.not_mem_nil a)
  · intro t ht
    exact absurd ht (List.not_mem_nil t)

theorem inv_step {s s' : State} (hInv : Inv s) (h : Step s s') : Inv s' := by
  cases h with
  | newScope ci h => exact inv_newScope hInv ci h
  | plainDerive ci h => exact inv_plainDerive hInv ci h
  | newFrame => exact inv_allocFrame hInv
  | cancel f cause => exact inv_cancelFrame hInv f cause
  | cleanup ci ret h => exact inv_cleanup hInv (getD_mem_of_lt h) _
  | awaiterCall ci h => exact inv_awaiter hInv (getD_mem_of_lt h)
  | goCall ci fret h => exact inv_go hInv (getD_mem_of_lt h) fret
  | waitStart ci l h => exact inv_waitStart hInv (getD_mem_of_lt h) l
  | runAct i pick h => exact inv_runAct hInv i pick h
  | runGo i h => exact inv_runGo hInv i h
  | waitGate wi h => exact inv_waitGate hInv wi h
  | waitFinish wi h => exact inv_waitFinish hInv wi h

/-- Every reachable state satisfies the invariant. -/
theorem reachable_inv {s : State} (h : Reachable s) : Inv s := by
  induction h with
  | init => exact inv_init
  | step _ hstep ih => exact inv_step ih hstep

/-! ### Consequences used by the claims -/

theorem waitFinishOp_actions (s : State) (wi : Nat) :
    (waitFinishOp s wi).actions = s.actions := by
  unfold waitFinishOp
  split
  · rfl
  · split <;> rfl

theorem canFinish_elim {s : State} {wi : Nat} {w : WaitOp}
    (hw : s.waits[wi]? = some w) (hfin : canFinish s wi = true) :
    w.phase = WaitPhase.joining ∧ ∀ g ∈ w.snapshot, groupDrained s g = true := by
  unfold canFinish at hfin
  rw [hw] at hfin
  simp only [Bool.and_eq_true, beq_iff_eq] at hfin
  exact ⟨hfin.1, fun g hgm => List.all_eq_true.mp hfin.2 g hgm⟩

theorem drained_runs {s : State} {g : Nat} (hdr : groupDrained s g = true)
    {a : Action} (ha : a ∈ s.actions) (hg : a.groupId = g) : a.runs ≠ 0 := by
  unfold groupDrained at hdr
  have h2 := List.all_eq_true.mp hdr a ha
  rw [hg] at h2
  simpa using h2

/-- The join of a wait can only complete once every registration on the
wait's entry has run: its group is the entry's head group, which is in the
snapshot the join iterates over. -/
theorem wait_drains {s : State} (hInv : Inv s) {wi : Nat} {w : WaitOp}
    (hw : s.waits[wi]? = some w) (hfin : canFinish s wi = true) :
    ∀ a ∈ s.actions, a.dgId = w.dgId → a.runs = 1 := by
  intro a ha hd
  obtain ⟨hph, hdr⟩ := canFinish_elim hw hfin
  obtain ⟨dga, hdga, hnea, hga⟩ := hInv.actOk a ha
  obtain ⟨dgw, hdgw, hnew2, hsnap⟩ := hInv.waitOk w (List.getElem?_mem hw)
  rw [hd] at hdga
  rw [hdgw] at hdga
  obtain rfl : dgw = dga := Option.some.inj hdga
  have hmem : dgw.cleanupGroups.headD 0 ∈ w.snapshot := hsnap (by simp [hph])
  have hdrained := hdr _ hmem
  have hne0 : a.runs ≠ 0 := drained_runs hdrained ha hga
  have hle := hInv.runsLe a ha
  omega

theorem waitFinish_result {s : State} {wi : Nat} {w : WaitOp} {dg : DoneGroup}
    (hw : s.waits[wi]? = some w) (hdg : s.dgs[w.dgId]? = some dg) :
    (waitFinishOp s wi).waits[wi]? =
      some { w with phase := WaitPhase.finished, result := some dg.errs } := by
  unfold waitFinishOp
  simp [hw, hdg, List.getElem?_set_self, (List.getElem?_eq_some.mp hw).1]

theorem waitGateOp_char {s : State} {wi : Nat} {w : WaitOp} {dg : DoneGroup}
    (hw : s.waits[wi]? = some w) (hdg : s.dgs[w.dgId]? = some dg) :
    waitGateOp s wi =
      { cancelFrame s (dg.gateFrames.headD 0) none with
        waits := (cancelFrame s (dg.gateFrames.headD 0) none).waits.set wi
          { w with phase := WaitPhase.joining, snapshot := dg.cleanupGroups } } := by
  unfold waitGateOp
  simp [hw, hdg]

theorem awaiterWithKey_nodg {s : State} {c : Ctx} (hc : c.dg = none) :
    awaiterWithKey s c = (allocFrame s, Except.error GoErr.notContainDoneGroup) := by
  unfold awaiterWithKey
  rw [cleanupWithKey_nodg _ hc]

/-! ### Concrete executions -/

def tA1 : State := newScopeOp init 0
def tA2 : State :=
  (cleanupWithKey tA1 (tA1.ctxs.getD 1 default) (ActKind.user (some (GoErr.user 1)))).1
def tA3 : State :=
  (cleanupWithKey tA2 (tA2.ctxs.getD 1 default) (ActKind.user (some (GoErr.user 2)))).1
def tA4 : State := cancelFrame tA3 0 none
def tA5 : State := (waitWithContextAndKey tA4 (tA4.ctxs.getD 1 default) []).1
def tA6 : State := waitGateOp tA5 0
def tA7 : State := runActionOp tA6 0 true
def tA8 : State := runActionOp tA7 1 true
def tA9 : State := waitFinishOp tA8 0

def tB1 : State := newScopeOp init 0
def tB2 : State := newScopeOp tB1 1
def tB3 : State :=
  (cleanupWithKey tB2 (tB2.ctxs.getD 1 default) (ActKind.user none)).1
def tB4 : State :=
  (cleanupWithKey tB3 (tB3.ctxs.getD 2 default) (ActKind.user none)).1
def tB5 : State := cancelFrame tB4 2 none
def tB6 : State := (waitWithContextAndKey tB5 (tB5.ctxs.getD 2 default) []).1
def tB7 : State := waitGateOp tB6 0
def tB8 : State := runActionOp tB7 1 true
def tB9 : State := waitFinishOp tB8 0
def tB10 : State := cancelFrame tB9 0 none
def tB11 : State := (waitWithContextAndKey tB10 (tB10.ctxs.getD 1 default) []).1
def tB12 : State := waitGateOp tB11 1
def tB13 : State := runActionOp tB12 0 true

def tC1 : State := newScopeOp init 0
def tC2 : State := newScopeOp tC1 1
def tC3 : State := newScopeOp tC2 2
def tC4 : State :=
  (cleanupWithKey tC3 (tC3.ctxs.getD 3 default) (ActKind.user none)).1
def tC5 : State := cancelFrame tC4 0 none
def tC6 : State := (waitWithContextAndKey tC5 (tC5.ctxs.getD 1 default) []).1
def tC7 : State := waitGateOp tC6 0

def tD1 : State := newScopeOp init 0
def tD2 : State :=
  (cleanupWithKey tD1 (tD1.ctxs.getD 1 default) (ActKind.user none)).1
def tD3 : State := cancelFrame tD2 0 none
def tD4 : State := allocFrame tD3
def tD5 : State := (waitWithContextAndKey tD4 (tD4.ctxs.getD 1 default) [2]).1
def tD6 : State := waitGateOp tD5 0
def tD7 : State := cancelFrame tD6 2 (some GoErr.deadlineExceeded)
def tD8 : State := runActionOp tD7 0 true
def tD9 : State := waitFinishOp tD8 0

def tE1 : State := newScopeOp init 0
def tE2 : State := cancelFrame tE1 0 none
def tE3 : State := (waitWithContextAndKey tE2 (tE2.ctxs.getD 1 default) []).1

theorem reachA1 : Reachable tA1 := Reachable.init.step (Step.newScope 0 (by decide))
theorem reachA2 : Reachable tA2 :=
  reachA1.step (Step.cleanup 1 (some (GoErr.user 1)) (by decide))
theorem reachA3 : Reachable tA3 :=
  reachA2.step (Step.cleanup 1 (some (GoErr.user 2)) (by decide))
theorem reachA4 : Reachable tA4 := reachA3.step (Step.cancel 0 none)
theorem reachA5 : Reachable tA5 := reachA4.step (Step.waitStart 1 [] (by decide))
theorem reachA6 : Reachable tA6 := reachA5.step (Step.waitGate 0 (by decide))
theorem reachA7 : Reachable tA7 := reachA6.step (Step.runAct 0 true (by decide))
theorem reachA8 : Reachable tA8 := reachA7.step (Step.runAct 1 true (by decide))

theorem reachB2 : Reachable tB2 :=
  (Reachable.init.step (Step.newScope 0 (by decide))).step (Step.newScope 1 (by decide))
theorem reachB3 : Reachable tB3 := reachB2.step (Step.cleanup 1 none (by decide))
theorem reachB4 : Reachable tB4 := reachB3.step (Step.cleanup 2 none (by decide))
theorem reachB5 : Reachable tB5 := reachB4.step (Step.cancel 2 none)
theorem reachB6 : Reachable tB6 := reachB5.step (Step.waitStart 2 [] (by decide))
theorem reachB7 : Reachable tB7 := reachB6.step (Step.waitGate 0 (by decide))
theorem reachB8 : Reachable tB8 := reachB7.step (Step.runAct 1 true (by decide))

theorem reachFromB8 : ReachableFrom tB8 tB13 :=
  (((((ReachableFrom.refl tB8).step (Step.waitFinish 0 (by decide))).step
    (Step.cancel 0 none)).step
    (Step.waitStart 1 [] (by decide))).step
    (Step.waitGate 1 (by decide))).step
    (Step.runAct 0 true (by decide))

theorem reachC3 : Reachable tC3 :=
  ((Reachable.init.step (Step.newScope 0 (by decide))).step
    (Step.newScope 1 (by decide))).step (Step.newScope 2 (by decide))
theorem reachC7 : Reachable tC7 :=
  (((reachC3.step (Step.cleanup 3 none (by decide))).step
    (Step.cancel 0 none)).step
    (Step.waitStart 1 [] (by decide))).step (Step.waitGate 0 (by decide))

theorem reachD7 : Reachable tD7 :=
  ((((((Reachable.init.step (Step.newScope 0 (by decide))).step
    (Step.cleanup 1 none (by decide))).step
    (Step.cancel 0 none)).step
    Step.newFrame).step
    (Step.waitStart 1 [2] (by decide))).step
    (Step.waitGate 0 (by decide))).step
    (Step.cancel 2 (some GoErr.deadlineExceeded))
theorem reachD9 : Reachable tD9 :=
  (reachD7.step (Step.runAct 0 true (by decide))).step (Step.waitFinish 0 (by decide))

theorem reachE3 : Reachable tE3 :=
  ((Reachable.init.step (Step.newScope 0 (by decide))).step
    (Step.cancel 0 none)).step (Step.waitStart 1 [] (by decide))

theorem gateDoneOfDg_congr {s s' : State} (hc : s'.cancelled = s.cancelled)
    (hd : s'.dgs = s.dgs) (d : Nat) : gateDoneOfDg s' d = gateDoneOfDg s d := by
  unfold gateDoneOfDg
  rw [hd]
  cases s.dgs[d]? with
  | none => rfl
  | some dg => exact ctxDone_congr hc _

theorem canRun_of_parts {s : State} {i : Nat} {a : Action} (ret : Option GoErr)
    (ha : s.actions[i]? = some a) (hk : a.kind = ActKind.user ret) (hrz : a.runs = 0)
    (hdone : ctxDone s a.regDones = true) (hgate : gateDoneOfDg s a.dgId = true) :
    canRun s i true = true := by
  unfold canRun
  rw [ha]
  simp [hk, hrz, hdone, hgate]

/-! ### The claims -/

/-- C1: for every scope holding a registry entry and every set of actions
registered on it via `Cleanup`, once the scope has been cancelled and a wait
on that scope completes its join, each registered action has executed exactly
once — none skipped, none run twice — in every interleaving of registrations,
cancellations and waits. -/
theorem c1_cleanup_exactly_once (s : State) (wi : Nat) (w : WaitOp)
    (hr : Reachable s) (hw : s.waits[wi]? = some w) (hfin : canFinish s wi = true) :
    ∀ a ∈ (waitFinishOp s wi).actions, a.dgId = w.dgId → a.runs = 1 := by
  rw [waitFinishOp_actions]
  exact wait_drains (reachable_inv hr) hw hfin

def wA : WaitOp := ⟨[0], 0, [], WaitPhase.joining, [0], none⟩

theorem c1_witness :
    ((waitFinishOp tA8 0).actions.getD 0 default).runs = 1 ∧
    ((waitFinishOp tA8 0).actions.getD 1 default).runs = 1 := by
  have h := c1_cleanup_exactly_once tA8 0 wA reachA8 (by decide) (by decide)
  exact ⟨h _ (by decide) (by decide), h _ (by decide) (by decide)⟩

/-- C2 counterexample: after root → child → grandchild creation, the
grandchild's fresh group (id 2) is appended to the **child's** (intermediate)
entry, not the root's; the root's list stays `[0, 1]` after two
descendant creations; and a wait at the root can complete while the
grandchild-registered action has never run, although the grandchild scope is
done. -/
theorem c2_counterexample :
    Reachable tC3 ∧ Reachable tC7 ∧
    (tC3.dgs.getD 0 default).cleanupGroups = [0, 1] ∧
    (tC3.dgs.getD 1 default).cleanupGroups = [1, 2] ∧
    (tC3.dgs.getD 2 default).cleanupGroups = [2] ∧
    canFinish tC7 0 = true ∧
    (tC7.actions.getD 0 default).runs = 0 ∧
    (tC7.actions.getD 0 default).dgId = 2 ∧
    ctxDone tC7 (tC7.ctxs.getD 3 default).dones = true :=
  ⟨reachC3, reachC7, by decide, by decide, by decide, by decide, by decide,
   by decide, by decide⟩

/-- C2 amended: each scope creation appends the fresh group to the entry of
its **parent** (the nearest ancestor entry found on the parent context),
never farther up: the parent's list grows by exactly one element per direct
child creation, every other entry is untouched, and the new leaf entry holds
only the fresh group.  A wait therefore joins only the groups of its own
entry's list. -/
theorem c2_parent_append (s : State) (ci p : Nat) (c : Ctx) (pdg : DoneGroup)
    (hci : s.ctxs[ci]? = some c) (hp : c.dg = some p) (hpdg : s.dgs[p]? = some pdg) :
    ((newScopeOp s ci).dgs[p]?).map (fun dgx => dgx.cleanupGroups) =
      some (pdg.cleanupGroups ++ [s.nextGroup]) ∧
    ((newScopeOp s ci).dgs[s.dgs.length]?).map (fun dgx => dgx.cleanupGroups) =
      some [s.nextGroup] ∧
    (∀ (q : Nat) (dgq : DoneGroup), q ≠ p → s.dgs[q]? = some dgq →
      (newScopeOp s ci).dgs[q]? = some dgq) ∧
    (newScopeOp s ci).dgs.length = s.dgs.length + 1 := by
  have hlt : ci < s.ctxs.length := (List.getElem?_eq_some.mp hci).1
  have hgd : s.ctxs.getD ci default = c := by
    have h2 := getElem?_getD hlt
    rw [hci] at h2
    exact (Option.some.inj h2).symm
  have hc2 : (s.ctxs.getD ci default).dg = some p := by rw [hgd]; exact hp
  have hplt : p < s.dgs.length := (List.getElem?_eq_some.mp hpdg).1
  rw [newScopeOp_leaf hc2 hpdg]
  refine ⟨?_, ?_, ?_, by simp⟩
  · show (((s.dgs.set p _ ++ [_] : List DoneGroup))[p]?).map _ = _
    simp [List.getElem?_append, List.getElem?_set_self, hplt]
  · show (((s.dgs.set p _ ++ [_] : List DoneGroup))[s.dgs.length]?).map _ = _
    rw [List.getElem?_append, if_neg (by simp)]
    simp
  · intro q dgq hq hdq
    have hqlt : q < s.dgs.length := (List.getElem?_eq_some.mp hdq).1
    show ((s.dgs.set p _ ++ [_] : List DoneGroup))[q]? = _
    rw [List.getElem?_append, if_pos (by simpa using hqlt),
      List.getElem?_set_ne (fun h => hq h.symm)]
    exact hdq

theorem c2_witness :
    ((newScopeOp tC2 2).dgs[1]?).map (fun dgx => dgx.cleanupGroups) =
      some (([1] : List Nat) ++ [tC2.nextGroup]) ∧
    ((newScopeOp tC2 2).dgs[tC2.dgs.length]?).map (fun dgx => dgx.cleanupGroups) =
      some [tC2.nextGroup] ∧
    (newScopeOp tC2 2).dgs[0]? = some ⟨0, [1], [0, 1], none, []⟩ ∧
    (newScopeOp tC2 2).dgs.length = tC2.dgs.length + 1 := by
  have h := c2_parent_append tC2 2 1 ⟨[2, 0], some 1⟩ ⟨2, [3, 1], [1], none, []⟩
    (by decide) (by decide) (by decide)
  exact ⟨h.1, h.2.1, h.2.2.1 0 ⟨0, [1], [0, 1], none, []⟩ (by decide) (by decide),
    h.2.2.2⟩

/-- C3 counterexample: a bounded wait whose wait context has expired while an
action is still pending does not return: its finish guard is false although
the wait context is done; and when the action later completes, the wait
returns the accumulated error alone (`[]` here) — the wait context's
cancellation cause is never merged in. -/
theorem c3_counterexample :
    Reachable tD7 ∧ Reachable tD9 ∧
    ctxwDone tD7 0 = true ∧
    groupDrained tD7 0 = false ∧
    canFinish tD7 0 = false ∧
    frameCancelled tD9 2 = true ∧
    (tD9.waits.getD 0 default).ctxwDones = [2] ∧
    (tD9.waits.getD 0 default).result = some [] :=
  ⟨reachD7, reachD9, by decide, by decide, by decide, by decide, by decide,
   by decide⟩

/-- C3 amended: the wait does not race its join against the wait context.
Whether the join can complete is unchanged by cancelling any frame (in
particular the wait context's timer); completion requires every snapshotted
group to have drained; and the wait's result is exactly the entry's
accumulated error, with no cancellation cause merged in.  The wait context
only bounds the wait indirectly: it is recorded on the entry and passed to
the cleanup functions, which may react to it. -/
theorem c3_join_ignores_waitctx (s : State) (wi : Nat) (w : WaitOp) (f : Nat)
    (cause : Option GoErr) (dg : DoneGroup)
    (hw : s.waits[wi]? = some w) (hdg : s.dgs[w.dgId]? = some dg) :
    canFinish (cancelFrame s f cause) wi = canFinish s wi ∧
    (canFinish s wi = true → ∀ g ∈ w.snapshot, groupDrained s g = true) ∧
    (waitFinishOp s wi).waits[wi]? =
      some { w with phase := WaitPhase.finished, result := some dg.errs } := by
  refine ⟨?_, ?_, waitFinish_result hw hdg⟩
  · unfold canFinish groupDrained
    rw [cancelFrame_waits, cancelFrame_actions]
  · intro hfin
    exact (canFinish_elim hw hfin).2

theorem c3_witness :
    canFinish (cancelFrame tA8 5 (some GoErr.deadlineExceeded)) 0 = canFinish tA8 0 ∧
    groupDrained tA8 0 = true ∧
    (waitFinishOp tA8 0).waits[0]? =
      some ⟨[0], 0, [], WaitPhase.finished, [0], some [GoErr.user 1, GoErr.user 2]⟩ := by
  have h := c3_join_ignores_waitctx tA8 0 wA 5 (some GoErr.deadlineExceeded)
    ⟨0, [1], [0], some [], [GoErr.user 1, GoErr.user 2]⟩ (by decide) (by decide)
  exact ⟨h.1, h.2.1 (by decide) 0 (by decide), h.2.2⟩

/-- C4 counterexample: the action registered on the child scope has executed
(after a wait on the child cancelled the child entry's own gate) while the
root entry's internal gate — frame 1, the root's only gate frame — has not
fired, and the root scope itself is not even done. -/
theorem c4_counterexample :
    Reachable tB8 ∧
    (tB8.actions.getD 1 default).runs = 1 ∧
    (tB8.actions.getD 1 default).dgId = 1 ∧
    (tB8.dgs.getD 0 default).gateFrames = [1] ∧
    frameCancelled tB8 1 = false ∧
    ctxDone tB8 [0] = false :=
  ⟨reachB8, by decide, by decide, by decide, by decide, by decide⟩

/-- C4 amended: an action never begins before both its registration context's
done signal and its **own entry's** internal gate have fired; that gate is
cancelled by a wait only after the wait has observed the scope's done signal;
and `Cleanup` itself returns nil immediately, appending a not-yet-run
registration without blocking. -/
theorem c4_gating (s : State) (hr : Reachable s) :
    (∀ a ∈ s.actions, a.runs ≠ 0 →
      ctxDone s a.regDones = true ∧ gateDoneOfDg s a.dgId = true) ∧
    (∀ wi : Nat, canGate s wi = true →
      ∃ w, s.waits[wi]? = some w ∧ ctxDone s w.scopeDones = true) ∧
    (∀ (c : Ctx) (d : Nat) (dg : DoneGroup) (k : ActKind), c.dg = some d →
      s.dgs[d]? = some dg →
      (cleanupWithKey s c k).2 = none ∧
      (cleanupWithKey s c k).1.actions = s.actions ++
        [{ regDones := c.dones, dgId := d, groupId := dg.cleanupGroups.headD 0,
           kind := k, runs := 0 }]) := by
  refine ⟨(reachable_inv hr).ranDone, ?_, ?_⟩
  · intro wi hg
    unfold canGate at hg
    cases hw : s.waits[wi]? with
    | none => rw [hw] at hg; simp at hg
    | some w =>
        rw [hw] at hg
        simp only [Bool.and_eq_true, beq_iff_eq] at hg
        exact ⟨w, rfl, hg.2⟩
  · intro c d dg k hc hdg
    rw [cleanupWithKey_some k hc hdg]
    exact ⟨rfl, rfl⟩

theorem c4_witness :
    ctxDone tB8 (tB8.actions.getD 1 default).regDones = true ∧
    gateDoneOfDg tB8 (tB8.actions.getD 1 default).dgId = true ∧
    (cleanupWithKey tB8 ⟨[2, 0], some 1⟩ (ActKind.user none)).2 = none := by
  have h := c4_gating tB8 reachB8
  refine ⟨(h.1 _ (by decide) (by decide)).1, (h.1 _ (by decide) (by decide)).2, ?_⟩
  exact (h.2.2 ⟨[2, 0], some 1⟩ 1 ⟨2, [3, 1], [1], some [], []⟩ (ActKind.user none)
    (by decide) (by decide)).1


/-- C5: when several actions registered on a scope return non-nil errors,
the error returned by a completed wait on that scope contains each of them
under identity inspection (membership in the joined list): every non-nil
action error is accumulated into the entry's error, never overwritten, and a
failing action never prevents the others from executing (all of them have
run exactly once by the time the wait completes). -/
theorem c5_errors_accumulated (s : State) (wi i1 i2 : Nat) (w : WaitOp)
    (a1 a2 : Action) (e1 e2 : GoErr) (dg : DoneGroup)
    (hr : Reachable s) (hw : s.waits[wi]? = some w) (hfin : canFinish s wi = true)
    (hdg : s.dgs[w.dgId]? = some dg)
    (h1 : s.actions[i1]? = some a1) (h2 : s.actions[i2]? = some a2)
    (hd1 : a1.dgId = w.dgId) (hd2 : a2.dgId = w.dgId)
    (hk1 : a1.kind = ActKind.user (some e1)) (hk2 : a2.kind = ActKind.user (some e2)) :
    (waitFinishOp s wi).waits[wi]? =
      some { w with phase := WaitPhase.finished, result := some dg.errs } ∧
    e1 ∈ dg.errs ∧ e2 ∈ dg.errs ∧
    (∀ a ∈ s.actions, a.dgId = w.dgId → a.runs = 1) := by
  have hInv := reachable_inv hr
  have hdr := wait_drains hInv hw hfin
  have hmem1 : e1 ∈ dg.errs := by
    have hr1 : a1.runs ≠ 0 := by
      have := hdr a1 (List.getElem?_mem h1) hd1
      omega
    obtain ⟨dg1, hdg1, he1⟩ := hInv.retErr a1 (List.getElem?_mem h1) hr1 e1 hk1
    rw [hd1, hdg] at hdg1
    obtain rfl : dg = dg1 := Option.some.inj hdg1
    exact he1
  have hmem2 : e2 ∈ dg.errs := by
    have hr2 : a2.runs ≠ 0 := by
      have := hdr a2 (List.getElem?_mem h2) hd2
      omega
    obtain ⟨dg2, hdg2, he2⟩ := hInv.retErr a2 (List.getElem?_mem h2) hr2 e2 hk2
    rw [hd2, hdg] at hdg2
    obtain rfl : dg = dg2 := Option.some.inj hdg2
    exact he2
  exact ⟨waitFinish_result hw hdg, hmem1, hmem2, hdr⟩

theorem c5_witness :
    (waitFinishOp tA8 0).waits[0]? =
      some ⟨[0], 0, [], WaitPhase.finished, [0], some [GoErr.user 1, GoErr.user 2]⟩ ∧
    GoErr.user 1 ∈ [GoErr.user 1, GoErr.user 2] ∧
    GoErr.user 2 ∈ [GoErr.user 1, GoErr.user 2] ∧
    (tA8.actions.getD 0 default).runs = 1 ∧
    (tA8.actions.getD 1 default).runs = 1 := by
  have h := c5_errors_accumulated tA8 0 0 1 wA
    ⟨[0], 0, 0, ActKind.user (some (GoErr.user 1)), 1⟩
    ⟨[0], 0, 0, ActKind.user (some (GoErr.user 2)), 1⟩
    (GoErr.user 1) (GoErr.user 2)
    ⟨0, [1], [0], some [], [GoErr.user 1, GoErr.user 2]⟩
    reachA8 (by decide) (by decide) (by decide) (by decide) (by decide)
    (by decide) (by decide) (by decide) (by decide)
  exact ⟨h.1, h.2.1, h.2.2.1, h.2.2.2 _ (by decide) (by decide),
    h.2.2.2 _ (by decide) (by decide)⟩

/-- C6: draining a child scope (cancel it, then a wait on it completes) runs
exactly the actions registered on the child's entry and leaves the actions of
the still-open ancestor unrun; a subsequent drain of the ancestor runs the
ancestor's actions exactly once without re-running the child's, which stay at
exactly one execution. -/
theorem c6_frame (s s2 : State) (wiC wiR : Nat) (wC wR : WaitOp)
    (dr dc : Nat) (rDones : List Nat)
    (hr : Reachable s) (hrf : ReachableFrom s s2)
    (hwC : s.waits[wiC]? = some wC) (hdc : wC.dgId = dc)
    (hfinC : canFinish s wiC = true)
    (hRact : ∀ a ∈ s.actions, a.dgId = dr → a.regDones = rDones)
    (hRnd : ctxDone s rDones = false)
    (hwR : s2.waits[wiR]? = some wR) (hdr2 : wR.dgId = dr)
    (hfinR : canFinish s2 wiR = true) :
    (∀ a ∈ s.actions, a.dgId = dc → a.runs = 1) ∧
    (∀ a ∈ s.actions, a.dgId = dr → a.runs = 0) ∧
    (∀ a ∈ s2.actions, a.dgId = dr → a.runs = 1) ∧
    (∀ (i : Nat) (a : Action), s.actions[i]? = some a → a.dgId = dc →
      ∃ a2, s2.actions[i]? = some a2 ∧ a2.runs = 1 ∧ a2.dgId = dc ∧
        a2.kind = a.kind) := by
  have hInv := reachable_inv hr
  have hInv2 := reachable_inv (hr.extend hrf)
  have ev := reachableFrom_evolves hrf
  refine ⟨?_, ?_, ?_, ?_⟩
  · intro a ha hd
    exact wait_drains hInv hwC hfinC a ha (hd.trans hdc.symm)
  · intro a ha hd
    by_contra hne
    have h1 := (hInv.ranDone a ha hne).1
    rw [hRact a ha hd] at h1
    rw [h1] at hRnd
    exact Bool.noConfusion hRnd
  · intro a ha hd
    exact wait_drains hInv2 hwR hfinR a ha (hd.trans hdr2.symm)
  · intro i a hi hd
    obtain ⟨a2, hi2, hreg2, hid2, hgr2, hkind2, hruns⟩ := ev.regs i a hi
    have ha1 : a.runs = 1 :=
      wait_drains hInv hwC hfinC a (List.getElem?_mem hi) (hd.trans hdc.symm)
    have hle := hInv2.runsLe a2 (List.getElem?_mem hi2)
    refine ⟨a2, hi2, by omega, hid2.trans hd, hkind2⟩

def wB : WaitOp := ⟨[2, 0], 1, [], WaitPhase.joining, [1], none⟩

def wR : WaitOp := ⟨[0], 0, [], WaitPhase.joining, [0, 1], none⟩

theorem c6_witness :
    (tB8.actions.getD 1 default).runs = 1 ∧
    (tB8.actions.getD 0 default).runs = 0 ∧
    (tB13.actions.getD 0 default).runs = 1 ∧
    (tB13.actions.getD 1 default).runs = 1 := by
  have h := c6_frame tB8 tB13 0 1 wB wR 0 1 [0] reachB8 reachFromB8
    (by decide) (by decide) (by decide) (by decide) (by decide)
    (by decide) (by decide) (by decide)
  refine ⟨h.1 _ (by decide) (by decide), h.2.1 _ (by decide) (by decide),
    h.2.2.1 _ (by decide) (by decide), ?_⟩
  obtain ⟨a2, hi2, hr2, _, _⟩ :=
    h.2.2.2 1 (tB8.actions.getD 1 default) (by decide) (by decide)
  have hx : tB13.actions.getD 1 default = a2 := by
    rw [List.getD_eq_getElem?_getD, hi2]
    rfl
  rw [hx]
  exact hr2

/-- C7: on a context with no reachable registry entry, `Cleanup`, the `Wait`
family, the `Cancel` family and `Awaiter` return the sentinel
`ErrNotContainDoneGroup` as a value, leaving the coordinator state otherwise
untouched, while `Awaitable` and `Go` are the only entry points that panic
with it. -/
theorem c7_no_entry (s : State) (c : Ctx) (ret fret : Option GoErr) (l : List Nat)
    (h : c.dg = none) :
    cleanupWithKey s c (ActKind.user ret) = (s, some GoErr.notContainDoneGroup) ∧
    waitWithContextAndKey s c l = (s, some GoErr.notContainDoneGroup) ∧
    waitWithTimeoutAndKey s c = (allocFrame s, some GoErr.notContainDoneGroup) ∧
    cancelWithContextAndKey s c l = (s, some GoErr.notContainDoneGroup) ∧
    awaiterWithKey s c = (allocFrame s, Except.error GoErr.notContainDoneGroup) ∧
    (awaitableWithKey s c).2 = PanicOr.panicked GoErr.notContainDoneGroup ∧
    (goWithKey s c fret).2 = PanicOr.panicked GoErr.notContainDoneGroup := by
  refine ⟨cleanupWithKey_nodg _ h, waitStart_nodg l h, ?_, ?_,
    awaiterWithKey_nodg h, ?_, ?_⟩
  · unfold waitWithTimeoutAndKey
    rw [waitStart_nodg _ h]
  · unfold cancelWithContextAndKey
    rw [h]
  · unfold awaitableWithKey
    rw [awaiterWithKey_nodg h]
  · unfold goWithKey
    rw [h]

theorem c7_witness :
    cleanupWithKey init ⟨[], none⟩ (ActKind.user none) =
      (init, some GoErr.notContainDoneGroup) ∧
    waitWithContextAndKey init ⟨[], none⟩ [] = (init, some GoErr.notContainDoneGroup) ∧
    waitWithTimeoutAndKey init ⟨[], none⟩ =
      (allocFrame init, some GoErr.notContainDoneGroup) ∧
    cancelWithContextAndKey init ⟨[], none⟩ [] =
      (init, some GoErr.notContainDoneGroup) ∧
    awaiterWithKey init ⟨[], none⟩ =
      (allocFrame init, Except.error GoErr.notContainDoneGroup) ∧
    (awaitableWithKey init ⟨[], none⟩).2 =
      PanicOr.panicked GoErr.notContainDoneGroup ∧
    (goWithKey init ⟨[], none⟩ none).2 =
      PanicOr.panicked GoErr.notContainDoneGroup :=
  c7_no_entry init ⟨[], none⟩ none none [] rfl

/-- C8: a wait on a scope whose entry has no registration counted into any of
its groups proceeds with no further action step needed: once the scope is
done the gate step is enabled, immediately after it the join guard holds (all
groups are trivially drained), and the wait finishes with a nil accumulated
error. -/
theorem c8_empty_wait (s : State) (wi : Nat) (w : WaitOp) (dg : DoneGroup)
    (hr : Reachable s) (hw : s.waits[wi]? = some w)
    (hph : w.phase = WaitPhase.blocked)
    (hdone : ctxDone s w.scopeDones = true)
    (hdg : s.dgs[w.dgId]? = some dg)
    (hno : ∀ a ∈ s.actions, a.groupId ∉ dg.cleanupGroups) :
    canGate s wi = true ∧
    canFinish (waitGateOp s wi) wi = true ∧
    (waitFinishOp (waitGateOp s wi) wi).waits[wi]? =
      some { w with phase := WaitPhase.finished, snapshot := dg.cleanupGroups,
                    result := some [] } := by
  have hInv := reachable_inv hr
  have hwlt : wi < s.waits.length := (List.getElem?_eq_some.mp hw).1
  have herrs : dg.errs = [] := by
    by_contra hne
    obtain ⟨a, ha, hda⟩ := hInv.errsOk w.dgId dg hdg hne
    obtain ⟨dga, hdga, hnea, hga⟩ := hInv.actOk a ha
    rw [hda, hdg] at hdga
    obtain rfl : dg = dga := Option.some.inj hdga
    exact hno a ha (hga ▸ List.headD_mem hnea)
  have hgate : canGate s wi = true := by
    unfold canGate
    rw [hw]
    simp [hph, hdone]
  have hchar := waitGateOp_char hw hdg
  have hw2 : (waitGateOp s wi).waits[wi]? =
      some { w with phase := WaitPhase.joining, snapshot := dg.cleanupGroups } := by
    rw [hchar]
    show ((cancelFrame s _ none).waits.set wi _)[wi]? = _
    rw [cancelFrame_waits]
    simp [List.getElem?_set_self, hwlt]
  have hdg2 : (waitGateOp s wi).dgs[w.dgId]? = some dg := by
    rw [hchar]
    show (cancelFrame s _ none).dgs[w.dgId]? = _
    rw [cancelFrame_dgs]
    exact hdg
  have hacts : (waitGateOp s wi).actions = s.actions := by
    rw [hchar]
    show (cancelFrame s _ none).actions = _
    rw [cancelFrame_actions]
  have hfin : canFinish (waitGateOp s wi) wi = true := by
    unfold canFinish
    rw [hw2]
    simp only [beq_self_eq_true, Bool.true_and]
    refine List.all_eq_true.mpr ?_
    intro g hg
    unfold groupDrained
    rw [hacts]
    refine List.all_eq_true.mpr ?_
    intro a ha
    have hnog := hno a ha
    simp only [Bool.or_eq_true, bne_iff_ne, ne_eq]
    left
    intro heq
    exact hnog (heq ▸ hg)
  refine ⟨hgate, hfin, ?_⟩
  rw [waitFinish_result hw2 hdg2, herrs]

theorem c8_witness :
    canGate tE3 0 = true ∧
    canFinish (waitGateOp tE3 0) 0 = true ∧
    (waitFinishOp (waitGateOp tE3 0) 0).waits[0]? =
      some ⟨[0], 0, [], WaitPhase.finished, [0], some []⟩ :=
  c8_empty_wait tE3 0 ⟨[0], 0, [], WaitPhase.blocked, [], none⟩
    ⟨0, [1], [0], some [], []⟩ reachE3 (by decide) (by decide) (by decide)
    (by decide) (by decide)

/-- C9: on a scope created by the coordinator (so the head of its done chain
is the frame its entry's cancel function cancels), `CancelWithContext` equals
first cancelling the scope's own done signal with cause `Canceled` and then
performing `WaitWithContext`; cancelling an already-cancelled frame is a
no-op, so the first cancellation and its recorded cause win. -/
theorem c9_cancel_then_wait (s : State) (c : Ctx) (d f : Nat) (dg : DoneGroup)
    (l : List Nat) (c1 c2 : Option GoErr)
    (hc : c.dg = some d) (hdg : s.dgs[d]? = some dg)
    (hown : dg.cancelFrame = c.dones.headD 0) :
    cancelWithContextAndKey s c l =
      waitWithContextAndKey (cancelFrame s (c.dones.headD 0) (some GoErr.canceled)) c l ∧
    cancelFrame (cancelFrame s f c1) f c2 = cancelFrame s f c1 ∧
    (frameCancelled s f = false →
      ((cancelFrame (cancelFrame s f c1) f c2).cancelled.lookup f) = some c1) := by
  have hidem : cancelFrame (cancelFrame s f c1) f c2 = cancelFrame s f c1 := by
    by_cases hf : frameCancelled s f = true
    · have hA : cancelFrame s f c1 = s := by
        unfold cancelFrame
        rw [if_pos hf]
      rw [hA]
      unfold cancelFrame
      rw [if_pos hf]
    · have hA : cancelFrame s f c1 = { s with cancelled := (f, c1) :: s.cancelled } := by
        unfold cancelFrame
        rw [if_neg hf]
      have hfc : frameCancelled { s with cancelled := (f, c1) :: s.cancelled } f = true := by
        unfold frameCancelled
        simp [List.lookup]
      rw [hA]
      unfold cancelFrame
      rw [if_pos hfc]
  refine ⟨?_, hidem, ?_⟩
  · unfold cancelWithContextAndKey
    rw [hc]
    show (match s.dgs[d]? with
      | none => (s, some GoErr.notContainDoneGroup)
      | some dgx =>
        waitWithContextAndKey (cancelFrame s dgx.cancelFrame (some GoErr.canceled)) c l) = _
    rw [hdg]
    show waitWithContextAndKey (cancelFrame s dg.cancelFrame (some GoErr.canceled)) c l = _
    rw [hown]
  · intro hf
    rw [hidem]
    unfold cancelFrame
    rw [if_neg (by simp [hf])]
    simp [List.lookup]

theorem c9_witness :
    cancelWithContextAndKey tB2 ⟨[2, 0], some 1⟩ [] =
      waitWithContextAndKey
        (cancelFrame tB2 (([2, 0] : List Nat).headD 0) (some GoErr.canceled))
        ⟨[2, 0], some 1⟩ [] ∧
    cancelFrame (cancelFrame tB2 7 (some (GoErr.user 5))) 7 (some (GoErr.user 6)) =
      cancelFrame tB2 7 (some (GoErr.user 5)) ∧
    ((cancelFrame (cancelFrame tB2 7 (some (GoErr.user 5))) 7
      (some (GoErr.user 6))).cancelled.lookup 7) = some (some (GoErr.user 5)) := by
  have h := c9_cancel_then_wait tB2 ⟨[2, 0], some 1⟩ 1 7 ⟨2, [3, 1], [1], none, []⟩ []
    (some (GoErr.user 5)) (some (GoErr.user 6)) (by decide) (by decide) (by decide)
  exact ⟨h.1, h.2.1, h.2.2 (by decide)⟩

/-- C10: registering a cleanup on a scope whose done signal has already fired
still succeeds: `Cleanup` returns nil, the action is appended unrun and
counted into its entry's head group (so that group is no longer drained), and
as soon as the entry's gate is also done the new action's goroutine is
enabled to run. -/
theorem c10_late_registration (s : State) (c : Ctx) (d : Nat) (dg : DoneGroup)
    (ret : Option GoErr)
    (hc : c.dg = some d) (hdg : s.dgs[d]? = some dg)
    (hdone : ctxDone s c.dones = true) :
    (cleanupWithKey s c (ActKind.user ret)).2 = none ∧
    (cleanupWithKey s c (ActKind.user ret)).1.actions = s.actions ++
      [{ regDones := c.dones, dgId := d, groupId := dg.cleanupGroups.headD 0,
         kind := ActKind.user ret, runs := 0 }] ∧
    groupDrained (cleanupWithKey s c (ActKind.user ret)).1
      (dg.cleanupGroups.headD 0) = false ∧
    (gateDoneOfDg s d = true →
      canRun (cleanupWithKey s c (ActKind.user ret)).1 s.actions.length true = true) := by
  have hfst := cleanupWithKey_some (ActKind.user ret) hc hdg
  refine ⟨by rw [hfst], by rw [hfst], ?_, ?_⟩
  · rw [hfst]
    unfold groupDrained
    show (s.actions ++ [_] : List Action).all _ = false
    rw [List.all_append]
    simp
  · intro hgate
    have hidx : (cleanupWithKey s c (ActKind.user ret)).1.actions[s.actions.length]? =
        some { regDones := c.dones, dgId := d, groupId := dg.cleanupGroups.headD 0,
               kind := ActKind.user ret, runs := 0 } := by
      rw [hfst]
      show (s.actions ++ [_] : List Action)[s.actions.length]? = _
      simp
    refine canRun_of_parts ret hidx rfl rfl ?_ ?_
    · have hcd : ctxDone (cleanupWithKey s c (ActKind.user ret)).1 c.dones =
          ctxDone s c.dones := by
        apply ctxDone_congr
        rw [hfst]
      exact hcd.trans hdone
    · have hgd : gateDoneOfDg (cleanupWithKey s c (ActKind.user ret)).1 d =
          gateDoneOfDg s d := by
        apply gateDoneOfDg_congr
        · rw [hfst]
        · rw [hfst]
      exact hgd.trans hgate

theorem c10_witness :
    (cleanupWithKey tA6 ⟨[0], some 0⟩ (ActKind.user (some (GoErr.user 9)))).2 = none ∧
    (cleanupWithKey tA6 ⟨[0], some 0⟩ (ActKind.user (some (GoErr.user 9)))).1.actions =
      tA6.actions ++
      [{ regDones := [0], dgId := 0, groupId := ([0] : List Nat).headD 0,
         kind := ActKind.user (some (GoErr.user 9)), runs := 0 }] ∧
    groupDrained (cleanupWithKey tA6 ⟨[0], some 0⟩
      (ActKind.user (some (GoErr.user 9)))).1 (([0] : List Nat).headD 0) = false ∧
    canRun (cleanupWithKey tA6 ⟨[0], some 0⟩
      (ActKind.user (some (GoErr.user 9)))).1 tA6.actions.length true = true := by
  have h := c10_late_registration tA6 ⟨[0], some 0⟩ 0 ⟨0, [1], [0], some [], []⟩
    (some (GoErr.user 9)) (by decide) (by decide) (by decide)
  exact ⟨h.1, h.2.1, h.2.2.1, h.2.2.2 (by decide)⟩

end Donegroup

